import Mathlib

/-!
Verification of the serializer-compiler core of the `typical` runtime
type-serialization library (`typic/serde/ser.py`) and of the self-reference
handling of its JSON-schema builder (`typic/ext/schema/schema.py`).

The Python code is shallowly embedded:

* `PVal` models runtime Python values (scalars, lists, dicts, enum members,
  instances of structured record classes, instances of "defined" types such
  as `uuid.UUID`, and the `Omit` sentinel that the lazy wrappers can leak
  into materialized output).
* `PTy` models resolved static type annotations.
* `Routine` models a compiled serializer function object; `runSer` is the
  interpreter giving the semantics of the generated code, including the
  lazy wrapper classes `SerList`, `KVSerDict` and `ClassFieldSerDict`.
* `compileSer` models `SerFactory._compile_serializer` (fuel-based: a `none`
  result means the Python code recurses without reaching a result).
* `buildSchema` / `getField` model `SchemaBuilder.build_schema` /
  `SchemaBuilder.get_field`.

Machine-integer and hashing details are irrelevant to the verified properties;
Python `int` is modelled as `Int` and `float` as `Rat` (only carried through,
never computed with). Mutually-inductive hand-rolled list types (`PList`,
`PPairs`, ...) are used instead of `List` inside the recursive datatypes so
that all functions are structurally recursive and compute by `rfl`.
-/

namespace Typical

/-- The fixed primitive types of `SerFactory._PRIMITIVES`:
`(str, int, bool, float, type(None))`. -/
inductive PrimTy where
  | pstr
  | pint
  | pbool
  | pfloat
  | pnone
  deriving DecidableEq, Repr

/-- A representative subset of the keys of the `SerFactory._DEFINED` registry
of pre-defined conversions (`uuid.UUID -> str`, `decimal.Decimal -> float`,
`bytes -> decode`, `datetime -> iso`, `re.Pattern -> .pattern`,
`pathlib.Path -> str`). The registry structure (which dispatch branch fires,
the null/type checks around the conversion) is what the verified properties exercise. -/
inductive DefinedTy where
  | uuidT
  | decimalT
  | bytesT
  | datetimeT
  | patternT
  | pathT
  deriving DecidableEq, Repr

mutual
/-- A runtime Python value.

`vdefined d payload` is an instance of the defined type `d` whose conversion
output (e.g. `str(uuid)`) is `payload`; `venum` is an enum member carrying its
`.value`; `vinst` is an instance of a structured (dataclass-like) record type;
`vomit` is the `_Omit` sentinel object of `ser.py`, which `KVSerDict` can leak
into materialized output. -/
inductive PVal where
  | vnone
  | vbool (b : Bool)
  | vint (n : Int)
  | vstr (s : String)
  | vfloat (q : Rat)
  | vdefined (d : DefinedTy) (payload : PVal)
  | venum (ename : String) (value : PVal)
  | vlist (xs : PList)
  | vdict (entries : PPairs)
  | vinst (cls : String) (fields : PFields)
  | vomit
  deriving Repr

/-- A Python list of values. -/
inductive PList where
  | nil
  | cons (hd : PVal) (tl : PList)
  deriving Repr

/-- The entries of a Python dict, in insertion order. -/
inductive PPairs where
  | nil
  | cons (k : PVal) (v : PVal) (tl : PPairs)
  deriving Repr

/-- The attribute dictionary of a record instance, in declaration order. -/
inductive PFields where
  | nil
  | cons (name : String) (v : PVal) (tl : PFields)
  deriving Repr
end

mutual
/-- Structural (syntactic) equality of values. -/
def PVal.beq : PVal → PVal → Bool
  | .vnone, .vnone => true
  | .vbool a, .vbool b => a == b
  | .vint a, .vint b => a == b
  | .vstr a, .vstr b => a == b
  | .vfloat a, .vfloat b => a == b
  | .vdefined d a, .vdefined e b => d == e && PVal.beq a b
  | .venum n a, .venum m b => n == m && PVal.beq a b
  | .vlist xs, .vlist ys => PList.beq xs ys
  | .vdict xs, .vdict ys => PPairs.beq xs ys
  | .vinst c xs, .vinst d ys => c == d && PFields.beq xs ys
  | .vomit, .vomit => true
  | _, _ => false

termination_by structural v => v
def PList.beq : PList → PList → Bool
  | .nil, .nil => true
  | .cons x xs, .cons y ys => PVal.beq x y && PList.beq xs ys
  | _, _ => false

termination_by structural v => v
def PPairs.beq : PPairs → PPairs → Bool
  | .nil, .nil => true
  | .cons k v xs, .cons k' v' ys => PVal.beq k k' && PVal.beq v v' && PPairs.beq xs ys
  | _, _ => false

termination_by structural v => v
def PFields.beq : PFields → PFields → Bool
  | .nil, .nil => true
  | .cons n v xs, .cons n' v' ys => n == n' && PVal.beq v v' && PFields.beq xs ys
  | _, _ => false
termination_by structural v => v
end

mutual
/-- Python `==` on values. Mirrors CPython semantics at the points the
verified properties exercise: numeric cross-type equality (`True == 1`, `1 == 1.0`),
element-wise equality for lists, entry-wise equality for dicts (output
dicts and omit values are compared in matching insertion order throughout
this development), structural equality for dataclass instances, and
identity (never equal to anything else) for the sentinel objects. -/
def PVal.pyEq : PVal → PVal → Bool
  | .vnone, .vnone => true
  | .vbool a, .vbool b => a == b
  | .vbool a, .vint b => (if a then (1 : Int) else 0) == b
  | .vbool a, .vfloat b => (if a then (1 : Rat) else 0) == b
  | .vint a, .vbool b => a == (if b then (1 : Int) else 0)
  | .vint a, .vint b => a == b
  | .vint a, .vfloat b => (a : Rat) == b
  | .vfloat a, .vbool b => a == (if b then (1 : Rat) else 0)
  | .vfloat a, .vint b => a == (b : Rat)
  | .vfloat a, .vfloat b => a == b
  | .vstr a, .vstr b => a == b
  | .vdefined d a, .vdefined e b => d == e && PVal.pyEq a b
  | .venum n a, .venum m b => n == m && PVal.pyEq a b
  | .vlist xs, .vlist ys => PList.pyEq xs ys
  | .vdict xs, .vdict ys => PPairs.pyEq xs ys
  | .vinst c xs, .vinst d ys => c == d && PFields.pyEq xs ys
  | .vomit, .vomit => true
  | _, _ => false

termination_by structural v => v
def PList.pyEq : PList → PList → Bool
  | .nil, .nil => true
  | .cons x xs, .cons y ys => PVal.pyEq x y && PList.pyEq xs ys
  | _, _ => false

termination_by structural v => v
def PPairs.pyEq : PPairs → PPairs → Bool
  | .nil, .nil => true
  | .cons k v xs, .cons k' v' ys => PVal.pyEq k k' && PVal.pyEq v v' && PPairs.pyEq xs ys
  | _, _ => false

termination_by structural v => v
def PFields.pyEq : PFields → PFields → Bool
  | .nil, .nil => true
  | .cons n v xs, .cons n' v' ys => n == n' && PVal.pyEq v v' && PFields.pyEq xs ys
  | _, _ => false
termination_by structural v => v
end

/-- Membership of a value in a tuple of omit values, as Python
`value in self.omit` tests it (element-wise `==`). -/
def PList.pyMem (v : PVal) : PList → Bool
  | .nil => false
  | .cons x xs => PVal.pyEq v x || PList.pyMem v xs

/-- `util.get_qualname(type(instance))`: the qualified name of a value's
runtime type, as used in serialization error messages. -/
def PVal.typeQualName : PVal → String
  | .vnone => "NoneType"
  | .vbool _ => "bool"
  | .vint _ => "int"
  | .vstr _ => "str"
  | .vfloat _ => "float"
  | .vdefined d _ =>
    match d with
    | .uuidT => "UUID"
    | .decimalT => "Decimal"
    | .bytesT => "bytes"
    | .datetimeT => "datetime"
    | .patternT => "Pattern"
    | .pathT => "Path"
  | .venum n _ => n
  | .vlist _ => "list"
  | .vdict _ => "dict"
  | .vinst c _ => c
  | .vomit => "_Omit"

/-- Whether a runtime value is an instance of a primitive type, as
`isinstance` reports it; `bool` is a subclass of `int` in Python. -/
def PVal.instOfPrim : PVal → PrimTy → Bool
  | .vnone, .pnone => true
  | .vbool _, .pbool => true
  | .vbool _, .pint => true
  | .vint _, .pint => true
  | .vstr _, .pstr => true
  | .vfloat _, .pfloat => true
  | _, _ => false

/-- The exact runtime primitive type of a value, when it has one. -/
def PVal.exactPrim : PVal → Option PrimTy
  | .vnone => some .pnone
  | .vbool _ => some .pbool
  | .vint _ => some .pint
  | .vstr _ => some .pstr
  | .vfloat _ => some .pfloat
  | _ => none

mutual
/-- `Resolver.primitive`.

Modelled from the spec: the resolver's generic passthrough fallback is not
under `src/`; per the spec it "defers type-specific logic entirely and
serializes value-by-value at call time based on the runtime type of each
value". Scalars pass through, defined types apply their registered
conversion (the stored conversion output), enum members are reduced to
their value, containers recurse, and record instances become field dicts. -/
def resolverPrimitive : PVal → PVal
  | .vnone => .vnone
  | .vbool b => .vbool b
  | .vint n => .vint n
  | .vstr s => .vstr s
  | .vfloat q => .vfloat q
  | .vdefined _ payload => payload
  | .venum _ v => resolverPrimitive v
  | .vlist xs => .vlist (resolverPrimitiveList xs)
  | .vdict es => .vdict (resolverPrimitivePairs es)
  | .vinst _ fs => .vdict (resolverPrimitiveFields fs)
  | .vomit => .vomit

termination_by structural v => v
def resolverPrimitiveList : PList → PList
  | .nil => .nil
  | .cons x xs => .cons (resolverPrimitive x) (resolverPrimitiveList xs)

termination_by structural v => v
def resolverPrimitivePairs : PPairs → PPairs
  | .nil => .nil
  | .cons k v xs => .cons (resolverPrimitive k) (resolverPrimitive v) (resolverPrimitivePairs xs)

termination_by structural v => v
def resolverPrimitiveFields : PFields → PPairs
  | .nil => .nil
  | .cons n v xs => .cons (.vstr n) (resolverPrimitive v) (resolverPrimitiveFields xs)
termination_by structural v => v
end

end Typical
namespace Typical

/-- A case-transform style (`annotation.serde.flags.case`); its
`transformer` is applied to already-serialized string keys. -/
inductive Case where
  | upper
  | lower
  deriving DecidableEq, Repr

/-- `case.transformer`. -/
def Case.transform : Case → String → String
  | .upper, s => s.toUpper
  | .lower, s => s.toLower

mutual
/-- A resolved static type annotation (`annotation.resolved_origin` side).

`primSub`/`definedSub` are strict user subclasses of a primitive / defined
type (the `issubclass` fall-through branches of `_compile_serializer`);
`dynamic` stands for the members of `SerFactory._DYNAMIC` (`Any`,
`inspect.Parameter.empty`, `dataclasses.MISSING`, `ClassVar`); `union` is a
`Union[...]` (whose origin is also in `_DYNAMIC` for the serializer, but
whose arguments matter to the schema builder); `listU`/`dictU` are untyped
containers (no generic arguments); `record` is a structured (dataclass-like)
class registered in the environment; `opt t` is `Optional[t]`. -/
inductive PTy where
  | prim (p : PrimTy)
  | primSub (name : String) (base : PrimTy)
  | defined (d : DefinedTy)
  | definedSub (name : String) (base : DefinedTy)
  | dynamic
  | union (args : PTyList)
  | enumT (ename : String) (memberVals : PList)
  | listU
  | listT (elem : PTy)
  | dictU
  | dictT (key : PTy) (val : PTy)
  | record (rname : String)
  | opt (t : PTy)
  deriving Repr

inductive PTyList where
  | nil
  | cons (hd : PTy) (tl : PTyList)
  deriving Repr
end

mutual
/-- Structural equality of type annotations (the normalized type signature:
two structurally equal annotations share one cache entry). -/
def PTy.beq : PTy → PTy → Bool
  | .prim p, .prim q => p == q
  | .primSub n p, .primSub m q => n == m && p == q
  | .defined d, .defined e => d == e
  | .definedSub n d, .definedSub m e => n == m && d == e
  | .dynamic, .dynamic => true
  | .union xs, .union ys => PTyList.beq xs ys
  | .enumT n vs, .enumT m ws => n == m && PList.beq vs ws
  | .listU, .listU => true
  | .listT a, .listT b => PTy.beq a b
  | .dictU, .dictU => true
  | .dictT k v, .dictT k' v' => PTy.beq k k' && PTy.beq v v'
  | .record r, .record s => r == s
  | .opt a, .opt b => PTy.beq a b
  | _, _ => false

termination_by structural v => v
def PTyList.beq : PTyList → PTyList → Bool
  | .nil, .nil => true
  | .cons x xs, .cons y ys => PTy.beq x y && PTyList.beq xs ys
  | _, _ => false
termination_by structural v => v
end

/-- `util.get_name(annotation.resolved)`: the display name of a type, used
as the default error-path prefix (`fname = name or <resolved name>`). -/
def PTy.tyName : PTy → String
  | .prim .pstr => "str"
  | .prim .pint => "int"
  | .prim .pbool => "bool"
  | .prim .pfloat => "float"
  | .prim .pnone => "NoneType"
  | .primSub n _ => n
  | .defined .uuidT => "UUID"
  | .defined .decimalT => "Decimal"
  | .defined .bytesT => "bytes"
  | .defined .datetimeT => "datetime"
  | .defined .patternT => "Pattern"
  | .defined .pathT => "Path"
  | .definedSub n _ => n
  | .dynamic => "Any"
  | .union _ => "Union"
  | .enumT n _ => n
  | .listU => "list"
  | .listT _ => "list"
  | .dictU => "dict"
  | .dictT _ _ => "dict"
  | .record r => r
  | .opt t => t.tyName

/-- Whether a runtime value is an instance of (a subclass of) the given
annotation's generic origin, as the generated `_validate` check tests it
(`_validate_instance` uses `isinstance`, `_validate_subclass` uses
`issubclass(type(o), t)`; both accept strict subclasses, so one predicate
models both). Values of user-defined subclasses of primitives / defined
types are not modelled, so `primSub`/`definedSub` accept no modelled value. -/
def PVal.instOfTy : PVal → PTy → Bool
  | v, .prim p => v.instOfPrim p
  | .vdefined d _, .defined e => d == e
  | .vdict _, .dictU => true
  | .vdict _, .dictT _ _ => true
  | .vlist _, .listU => true
  | .vlist _, .listT _ => true
  | .vinst c _, .record r => c == r
  | .venum e _, .enumT n _ => e == n
  | _, _ => false

/-- The runtime type of a value as a type annotation (`type(x)`), used when
`_compile_enum_serializer` inspects `{type(x.value) for x in origin}`.
The member-value list of an enum-typed value's own class is not recoverable
from the value, so it is rendered empty; only the size of the set of
distinct types is consumed. -/
def PVal.runtimeTy : PVal → PTy
  | .vnone => .prim .pnone
  | .vbool _ => .prim .pbool
  | .vint _ => .prim .pint
  | .vstr _ => .prim .pstr
  | .vfloat _ => .prim .pfloat
  | .vdefined d _ => .defined d
  | .venum e _ => .enumT e .nil
  | .vlist _ => .listU
  | .vdict _ => .dictU
  | .vinst c _ => .record c
  | .vomit => .dynamic

/-- The distinct runtime types of a list of values, via structural type
equality (`{type(x.value) for x in origin}`). -/
def distinctTys : PList → List PTy
  | .nil => []
  | .cons x xs =>
    let rest := distinctTys xs
    if rest.any (fun t => PTy.beq x.runtimeTy t) then rest else x.runtimeTy :: rest

/-- The serde configuration attached to an annotation (`SerdeConfig`).

Modelled from the spec: `SerdeConfig` lives in `typic/serde/common.py`,
which is not under `src/`; per the spec it carries "field name mappings
in/out, ..., case-transform function, set of sentinel values to omit,
recursion-control flags". Only the pieces `ser.py` reads are modelled:
`fields_out`, `omit_values` and `flags.case`. The per-record `fields` /
`fields_getters` mappings are derived from the record environment. -/
structure SerdeCfg where
  fieldsOut : List (String × String) := []
  omitValues : PList := .nil
  case : Option Case := none
  deriving Repr

/-- A resolved annotation, as `SerFactory` consumes it: the optional-
stripped resolved type, the optionality flag, the `static` flag (false for
types that cannot be resolved to a concrete runtime shape) and the attached
serde configuration (`None` when the caller attached none). -/
structure Anno where
  ty : PTy
  optional : Bool := false
  static : Bool := true
  serde : Option SerdeCfg := none
  deriving Repr

/-- Strip `Optional[...]` wrappers, reporting whether any was stripped. -/
def PTy.stripOpt : PTy → PTy × Bool
  | .opt t => ((t.stripOpt).1, true)
  | t => (t, false)

/-- `Resolver.annotation(type, flags)`.

Modelled from the spec: the resolver is not under `src/`; per the spec the
normalizer "unwraps optional markers" (tracked as the optionality flag) and
the resolver attaches a serde configuration built from the flags it is
passed. Nested annotations therefore inherit the configuration of the
enclosing annotation, which is how `ser.py` passes
`flags=annotation.serde.flags` down. -/
def resolveAnno (t : PTy) (cfg : SerdeCfg) : Anno :=
  let s := t.stripOpt
  { ty := s.1, optional := s.2, static := true, serde := some cfg }

/-- One declared field of a structured record type. -/
structure RecField where
  fname : String
  fty : PTy
  hasDefault : Bool := false
  deriving Repr

/-- A structured record (dataclass-like) class declaration. -/
structure RecordDef where
  fields : List RecField
  deriving Repr

/-- The class environment: record name to declaration. Python classes refer
to each other by name, which is what makes self-referential records
expressible. -/
def Env := List (String × RecordDef)

/-- Look up a record declaration. -/
def Env.find : Env → String → Option RecordDef
  | [], _ => none
  | (n, d) :: rest, r => if n == r then some d else Env.find rest r

end Typical
namespace Typical

mutual
/-- A compiled serializer routine (the function object produced by
`SerFactory._compile_serializer`).

`primitive` is the one shared `Resolver.primitive` passthrough object (the
dynamic-branch result); every other constructor carries the allocation id
`rid` of the function object freshly created by `gen.Block.compile` (or, for
`enumR`, the fresh closure), so that object identity of routines is
observable: two routines built by distinct compilations have distinct ids.

* `primR` - the primitive branch (null check if optional, type check, `return o`);
* `definedR` - `_compile_defined_serializer` for a `_DEFINED` entry or a
  subclass of one (null check, type check, apply the registered conversion);
* `castR` - `_compile_primitive_subclass_serializer` (conversion is the
  primitive constructor itself);
* `enumR` - the closure built by `_compile_enum_serializer` for an enum
  whose members share one value type (no null or type check; delegates
  `o.value` to the inner routine);
* `listRU` / `listRT` - `_build_list_serializer` without / with an element
  type argument (`[*o]` vs. `SerList`);
* `dictR` - `_build_dict_serializer`: the key pipeline (`fields_out` get,
  base key serializer, case transform), the value serializer and the
  `KVSerDict` construction;
* `classR` - `_build_class_serializer`: per-field (out-name, attribute,
  routine) triples after `make_class_serdict` renaming, plus the omit tuple. -/
inductive Routine where
  | primitive
  | primR (p : PrimTy) (optional : Bool) (tname : String) (rid : Nat)
  | definedR (d : DefinedTy) (optional : Bool) (tname : String) (rid : Nat)
  | castR (subName : String) (p : PrimTy) (optional : Bool) (tname : String) (rid : Nat)
  | enumR (inner : Routine) (rid : Nat)
  | listRU (optional : Bool) (tname : String) (rid : Nat)
  | listRT (elem : Routine) (optional : Bool) (tname : String) (rid : Nat)
  | dictR (fieldsOut : List (String × String)) (cs : Option Case) (kser : Routine)
      (vser : Routine) (omits : PList) (optional : Bool) (tname : String) (rid : Nat)
  | classR (rname : String) (fields : RFields) (omits : PList) (optional : Bool)
      (tname : String) (rid : Nat)
  deriving Repr

/-- The per-field serializer table of a compiled class serializer:
(serialized field name, instance attribute to read, field routine). -/
inductive RFields where
  | nil
  | cons (outName : String) (attr : String) (ser : Routine) (tl : RFields)
  deriving Repr
end

mutual
/-- Structural equality of routines. Fresh function objects carry distinct
allocation ids, so `beq` is object identity for compiled routines. -/
def Routine.beq : Routine → Routine → Bool
  | .primitive, .primitive => true
  | .primR p o t i, .primR p' o' t' i' => p == p' && o == o' && t == t' && i == i'
  | .definedR d o t i, .definedR d' o' t' i' => d == d' && o == o' && t == t' && i == i'
  | .castR s p o t i, .castR s' p' o' t' i' =>
      s == s' && p == p' && o == o' && t == t' && i == i'
  | .enumR r i, .enumR r' i' => Routine.beq r r' && i == i'
  | .listRU o t i, .listRU o' t' i' => o == o' && t == t' && i == i'
  | .listRT e o t i, .listRT e' o' t' i' => Routine.beq e e' && o == o' && t == t' && i == i'
  | .dictR f c k v m o t i, .dictR f' c' k' v' m' o' t' i' =>
      f == f' && c == c' && Routine.beq k k' && Routine.beq v v' && PList.beq m m'
        && o == o' && t == t' && i == i'
  | .classR r fs m o t i, .classR r' fs' m' o' t' i' =>
      r == r' && RFields.beq fs fs' && PList.beq m m' && o == o' && t == t' && i == i'
  | _, _ => false

termination_by structural v => v
def RFields.beq : RFields → RFields → Bool
  | .nil, .nil => true
  | .cons y a s tl, .cons y' a' s' tl' =>
      y == y' && a == a' && Routine.beq s s' && RFields.beq tl tl'
  | _, _ => false
termination_by structural v => v
end

mutual
/-- The value returned by a routine invocation, before any materialization:
either a plain value, or one of the three wrapper objects (`SerList`,
`KVSerDict`, `ClassFieldSerDict`) holding its construction-time state.

`wlist` holds the already-serialized elements (`SerList.__init__` serializes
eagerly). `wkv` holds the omit tuple and, per serialized key, the value the
first `__getitem__` access will memoize (value serializers are deterministic,
so this is construction-determined even though Python computes it lazily).
`wclass` holds, per serialized field name, either the field's serialized
value or the fact that its raw value was in the omit set. -/
inductive LVal where
  | base (v : PVal)
  | wlist (xs : LList)
  | wkv (omits : PList) (entries : LEntries)
  | wclass (entries : LFields)
  deriving Repr

inductive LList where
  | nil
  | cons (hd : LVal) (tl : LList)
  deriving Repr

inductive LEntries where
  | nil
  | cons (k : PVal) (v : LVal) (tl : LEntries)
  deriving Repr

inductive LFields where
  | nil
  | consOmitted (name : String) (tl : LFields)
  | consVal (name : String) (v : LVal) (tl : LFields)
  deriving Repr
end

/-- Whether a `KVSerDict`'s entry list is empty. -/
def LEntries.isNil : LEntries → Bool
  | .nil => true
  | _ => false

/-- Whether a `ClassFieldSerDict`'s field list is empty. -/
def LFields.isNil : LFields → Bool
  | .nil => true
  | _ => false

mutual
/-- Python `==` between a stored (possibly wrapper) value and a plain value,
as `KVSerDict.__getitem__` evaluates `value in self.omit` on a memoized
value during the materializing pass.

A stored `SerList` is a `list` subclass whose elements are already
serialized, so it compares element-wise. A stored `KVSerDict` /
`ClassFieldSerDict` is a `dict` subclass whose backing store still maps
every key to the `Unprocessed` sentinel at the moment of the comparison
(none of its keys has been read yet); CPython's `dict.__eq__` reads the
backing store directly and `Unprocessed` (which defines no `__eq__`)
equals nothing, so such a wrapper equals a plain dict only when both are
empty. -/
def LVal.pyEqP : LVal → PVal → Bool
  | .base v, m => PVal.pyEq v m
  | .wlist xs, .vlist ys => LList.pyEqP xs ys
  | .wlist _, _ => false
  | .wkv _ entries, .vdict ys => entries.isNil && PPairs.beq ys .nil
  | .wkv _ _, _ => false
  | .wclass entries, .vdict ys => entries.isNil && PPairs.beq ys .nil
  | .wclass _, _ => false

termination_by structural v => v
def LList.pyEqP : LList → PList → Bool
  | .nil, .nil => true
  | .cons x xs, .cons y ys => LVal.pyEqP x y && LList.pyEqP xs ys
  | _, _ => false
termination_by structural v => v
end

/-- `value in self.omit` for a stored value. -/
def LVal.pyMemOmit (lv : LVal) : PList → Bool
  | .nil => false
  | .cons x xs => LVal.pyEqP lv x || LVal.pyMemOmit lv xs

mutual
/-- Full materialization of a routine result: the plain structure obtained
by reading every key/element of every wrapper.

For a `KVSerDict` this is exactly what both `{**d}` (the `lazy=False` path
of the generated code) and a full read of the lazy wrapper perform: a first
pass over the keys serializes and memoizes every value (never yielding
`Omit`, since the omit comparison happens against the *stored* value which
is `Unprocessed` on first access), and the per-key reads then return `Omit`
for any memoized value that compares equal to an omit member — so such keys
appear in the output with the `Omit` sentinel as their value. For a
`ClassFieldSerDict`, keys whose raw value was in the omit set are skipped
by iteration and absent from the output. -/
def LVal.mat : LVal → PVal
  | .base v => v
  | .wlist xs => .vlist (LList.mat xs)
  | .wkv omits entries => .vdict (LEntries.mat omits entries)
  | .wclass entries => .vdict (LFields.mat entries)

termination_by structural v => v
def LList.mat : LList → PList
  | .nil => .nil
  | .cons x xs => .cons (LVal.mat x) (LList.mat xs)

termination_by structural v => v
def LEntries.mat (omits : PList) : LEntries → PPairs
  | .nil => .nil
  | .cons k lv tl =>
      .cons k (if LVal.pyMemOmit lv omits then .vomit else LVal.mat lv) (LEntries.mat omits tl)

termination_by structural v => v
def LFields.mat : LFields → PPairs
  | .nil => .nil
  | .consOmitted _ tl => LFields.mat tl
  | .consVal n lv tl => .cons (.vstr n) (LVal.mat lv) (LFields.mat tl)
termination_by structural v => v
end

/-- A serialization-time error: the `SerializationValueError` raised by
`_raise_serialization_error` (carrying the error-path prefix, the runtime
type's qualified name and the expected type's qualified name), or an
`AttributeError` (e.g. `None.value` in an enum serializer). -/
inductive SerErr where
  | typeMismatch (pathPre : String) (instName : String) (tyName : String) (sub : Bool)
  | attrErr (attr : String)
  deriving DecidableEq, Repr

/-- Routine invocation result: `none` models non-termination (fuel ran out),
`some (.error e)` a raised exception, `some (.ok lv)` a returned value. -/
abbrev OE (α : Type) := Option (Except SerErr α)

/-- Attribute lookup on a record instance (`fields_getters`). -/
def PFields.lookup : PFields → String → Option PVal
  | .nil, _ => none
  | .cons n v tl, a => if n == a then some v else PFields.lookup tl a

/-- A coarse `repr` of a dict key / list index for error paths
(`util.collectionrepr`). -/
def PVal.shortRepr : PVal → String
  | .vstr s => "'" ++ s ++ "'"
  | .vint n => toString n
  | .vbool true => "True"
  | .vbool false => "False"
  | .vnone => "None"
  | v => v.typeQualName

/-- The registered conversion of a `_DEFINED` entry, applied by the defined
branch after validation: the conversion output (`str(uuid)`,
`float(decimal)`, `o.isoformat()` with the naive-UTC suffix, ...) is carried
on the modelled instance. Behind `_validate` the argument is always an
instance of the defined type. -/
def definedConv : DefinedTy → PVal → PVal
  | _, .vdefined _ payload => payload
  | _, v => v

/-- `SerList.__init__`: serialize every element of the input at
construction time, with the element serializer and the wrapper's `lazy`
flag, indexing error paths. -/
def serElems (f : PVal → Nat → OE LVal) : PList → Nat → OE LList
  | .nil, _ => some (.ok .nil)
  | .cons x xs, i =>
    match f x i with
    | none => none
    | some (.error e) => some (.error e)
    | some (.ok lv) =>
      match serElems f xs (i + 1) with
      | none => none
      | some (.error e) => some (.error e)
      | some (.ok rest) => some (.ok (.cons lv rest))

/-- Python dict insertion: an existing key (by `==`) keeps its position and
original key object but takes the new value; a new key is appended. -/
def kvInsert : PPairs → PVal → PVal → PPairs
  | .nil, k, v => .cons k v .nil
  | .cons k0 v0 tl, k, v =>
    if PVal.pyEq k0 k then .cons k0 v tl else .cons k0 v0 (kvInsert tl k v)

/-- `KVSerDict.__init__`, key stage: `{kser(k): v for k, v in ...}` — the
serialized-key dict is built eagerly, with Python dict overwrite semantics
when two raw keys serialize to the same key. -/
def serKeysAux (fk : PVal → OE PVal) : PPairs → PPairs → OE PPairs
  | .nil, acc => some (.ok acc)
  | .cons k v tl, acc =>
    match fk k with
    | none => none
    | some (.error e) => some (.error e)
    | some (.ok sk) => serKeysAux fk tl (kvInsert acc sk v)

/-- Value stage of a `KVSerDict`: per (serialized key, raw value) entry, the
value the first `__getitem__` access memoizes. -/
def serKVVals (fv : PVal → PVal → OE LVal) : PPairs → OE LEntries
  | .nil => some (.ok .nil)
  | .cons sk raw tl =>
    match fv sk raw with
    | none => none
    | some (.error e) => some (.error e)
    | some (.ok lv) =>
      match serKVVals fv tl with
      | none => none
      | some (.error e) => some (.error e)
      | some (.ok rest) => some (.ok (.cons sk lv rest))

/-- Field stage of a `ClassFieldSerDict`: per (out-name, attribute, routine)
entry, read the raw attribute (an absent attribute raises
`AttributeError`), mark the field omitted when the raw value is in the omit
tuple, and otherwise serialize it. -/
def serClassFields (f : Routine → PVal → String → OE LVal) (inst : PFields) (omits : PList) :
    RFields → OE LFields
  | .nil => some (.ok .nil)
  | .cons y attr fser tl =>
    match inst.lookup attr with
    | none => some (.error (.attrErr attr))
    | some raw =>
      if PList.pyMem raw omits then
        match serClassFields f inst omits tl with
        | none => none
        | some (.error e) => some (.error e)
        | some (.ok rest) => some (.ok (.consOmitted y rest))
      else
        match f fser raw y with
        | none => none
        | some (.error e) => some (.error e)
        | some (.ok lv) =>
          match serClassFields f inst omits tl with
          | none => none
          | some (.error e) => some (.error e)
          | some (.ok rest) => some (.ok (.consVal y lv rest))

/-- The key pipeline built by `_build_key_serializer`: apply the
`fields_out` rename (`fields_out.get(k, k)`, which can only hit a string
key), serialize with the base key serializer (called with `lazy=False` and
no name), and finally apply the case transform to a string result.
Composite key results are collapsed to their materialized value (Python
would reject them as unhashable; no modelled configuration produces them). -/
def keyPipe (fieldsOut : List (String × String)) (cs : Option Case)
    (fk : PVal → OE LVal) (k : PVal) : OE PVal :=
  let k1 := match k with
    | .vstr s =>
      match fieldsOut.lookup s with
      | some y => PVal.vstr y
      | none => k
    | _ => k
  match fk k1 with
  | none => none
  | some (.error e) => some (.error e)
  | some (.ok lv) =>
    let k2 := lv.mat
    some (.ok (match cs, k2 with
      | some c, .vstr s => .vstr (c.transform s)
      | _, _ => k2))

/-- One unfolding step of routine invocation; `rec` is the interpreter for
the recursive (nested-serializer) calls. Mirrors the generated code of each
branch: an optional-null short-circuit where the branch emits one, then the
`_validate` type check where the branch emits one, then the branch body.
The `lazy` flag decides only whether a wrapper is returned as-is or
collapsed (`d if lazy else {**d}`); the construction work is identical. -/
def runSerStep (rec : Routine → PVal → Bool → Option String → OE LVal) :
    Routine → PVal → Bool → Option String → OE LVal
  | .primitive, v, _, _ => some (.ok (.base (resolverPrimitive v)))
  | .primR p opt tname _, v, _, name =>
    if opt && PVal.beq v .vnone then some (.ok (.base .vnone))
    else
      let fname := name.getD tname
      if v.instOfPrim p then some (.ok (.base v))
      else some (.error (.typeMismatch (fname ++ ": ") v.typeQualName (PTy.prim p).tyName true))
  | .definedR d opt tname _, v, _, name =>
    if opt && PVal.beq v .vnone then some (.ok (.base .vnone))
    else
      let fname := name.getD tname
      if v.instOfTy (.defined d) then some (.ok (.base (definedConv d v)))
      else some (.error (.typeMismatch (fname ++ ": ") v.typeQualName (PTy.defined d).tyName true))
  | .castR subName p opt tname _, v, _, name =>
    if opt && PVal.beq v .vnone then some (.ok (.base .vnone))
    else
      let fname := name.getD tname
      if v.instOfTy (.primSub subName p) then some (.ok (.base v))
      else some (.error (.typeMismatch (fname ++ ": ") v.typeQualName subName true))
  | .enumR inner _, v, lazy, name =>
    match v with
    | .venum _ pay => rec inner pay lazy name
    | .vinst _ pf =>
      match pf.lookup "value" with
      | some pay => rec inner pay lazy name
      | none => some (.error (.attrErr "value"))
    | _ => some (.error (.attrErr "value"))
  | .listRU opt tname _, v, _, name =>
    if opt && PVal.beq v .vnone then some (.ok (.base .vnone))
    else
      let fname := name.getD tname
      match v with
      | .vlist xs => some (.ok (.base (.vlist xs)))
      | _ => some (.error (.typeMismatch (fname ++ ": ") v.typeQualName "list" true))
  | .listRT er opt tname _, v, lazy, name =>
    if opt && PVal.beq v .vnone then some (.ok (.base .vnone))
    else
      let fname := name.getD tname
      match v with
      | .vlist xs =>
        match serElems (fun x i => rec er x lazy (some (fname ++ "[" ++ toString i ++ "]"))) xs 0 with
        | none => none
        | some (.error e) => some (.error e)
        | some (.ok lxs) => some (.ok (.wlist lxs))
      | _ => some (.error (.typeMismatch (fname ++ ": ") v.typeQualName "list" true))
  | .dictR fieldsOut cs kser vser omits opt tname _, v, lazy, name =>
    if opt && PVal.beq v .vnone then some (.ok (.base .vnone))
    else
      let fname := name.getD tname
      match v with
      | .vdict es =>
        match serKeysAux (keyPipe fieldsOut cs (fun k => rec kser k false none)) es .nil with
        | none => none
        | some (.error e) => some (.error e)
        | some (.ok skEntries) =>
          match serKVVals
              (fun sk raw => rec vser raw lazy (some (fname ++ "[" ++ sk.shortRepr ++ "]")))
              skEntries with
          | none => none
          | some (.error e) => some (.error e)
          | some (.ok lentries) =>
            if lazy then some (.ok (.wkv omits lentries))
            else some (.ok (.base (.vdict (LEntries.mat omits lentries))))
      | _ => some (.error (.typeMismatch (fname ++ ": ") v.typeQualName "dict" true))
  | .classR rname fields omits opt tname _, v, lazy, name =>
    if opt && PVal.beq v .vnone then some (.ok (.base .vnone))
    else
      let fname := name.getD tname
      match v with
      | .vinst c pf =>
        if c == rname then
          match serClassFields (fun fr raw y => rec fr raw lazy (some (fname ++ "." ++ y)))
              pf omits fields with
          | none => none
          | some (.error e) => some (.error e)
          | some (.ok lfs) =>
            if lazy then some (.ok (.wclass lfs))
            else some (.ok (.base (.vdict (LFields.mat lfs))))
        else some (.error (.typeMismatch (fname ++ ": ") v.typeQualName rname true))
      | _ => some (.error (.typeMismatch (fname ++ ": ") v.typeQualName rname true))

/-- Routine invocation: `routine(value, lazy=lazy, name=name)`. Fuel bounds
the nesting depth of serializer delegation; compiled routines are finite,
so any fuel exceeding the routine's depth is enough. -/
def runSer : Nat → Routine → PVal → Bool → Option String → OE LVal
  | 0, _, _, _, _ => none
  | fuel + 1, r, v, lazy, name => runSerStep (runSer fuel) r v lazy name

end Typical
namespace Typical

/-- The serializer-factory state: the process-wide serializer cache (keyed
by the normalized type signature — the pair of resolved type and optional
flag, modelling `util.get_defname("serializer", annotation)`), plus the
allocation counter handing out function-object identities. -/
structure CompSt where
  cache : List ((PTy × Bool) × Routine) := []
  next : Nat := 0
  deriving Repr

/-- Look up a normalized signature in the serializer cache
(`func_name in self._serializer_cache`). -/
def cacheFind : List ((PTy × Bool) × Routine) → PTy → Bool → Option Routine
  | [], _, _ => none
  | ((t, o), r) :: tl, ty, opt =>
    if PTy.beq t ty && o == opt then some r else cacheFind tl ty opt

/-- `_build_class_serializer`, field-compilation stage:
`{x: self.factory(y) for x, y in annotation.serde.fields.items()}` — compile
each declared field's annotation in order, threading the factory state;
`rec` is the recursive compiler. -/
def compileFields (rec : Anno → CompSt → Option (Routine × CompSt)) (cfg : SerdeCfg) :
    List RecField → CompSt → Option (List (String × Routine) × CompSt)
  | [], st => some ([], st)
  | fd :: rest, st =>
    match rec (resolveAnno fd.fty cfg) st with
    | none => none
    | some (r, st') =>
      match compileFields rec cfg rest st' with
      | none => none
      | some (rs, st'') => some ((fd.fname, r) :: rs, st'')

/-- Convert a field-serializer table to the class-serializer field list. -/
def toRFields : List (String × String × Routine) → RFields
  | [] => .nil
  | (y, x, r) :: tl => .cons y x r (toRFields tl)

/-- `make_class_serdict`: when `fields_out` is configured (non-empty), the
class dict keeps exactly the renamed fields, keyed by out-name with the
getter of the original attribute (`{y: getters[x] for x, y in fout.items()}`,
entries whose original field does not exist would raise and are dropped
here); otherwise every field keeps its own name. -/
def renameClassFields (fieldsOut : List (String × String))
    (fsers : List (String × Routine)) : List (String × String × Routine) :=
  if fieldsOut.isEmpty then fsers.map (fun p => (p.1, p.1, p.2))
  else fieldsOut.filterMap (fun p => (fsers.lookup p.1).map (fun r => (p.2, p.1, r)))

/-- One unfolding step of `SerFactory._compile_serializer`; `rec` is the
recursive compile used for nested annotations. Mirrors the dispatch chain:
cache hit; dynamic / non-static; enum; primitive (cached); defined and the
two subclass fall-throughs (not cached); and the generated-code branch for
mapping, array and structured-class types (cached — note the cache entry is
written only *after* the nested field serializers have been compiled). -/
def compileStep (env : Env) (rec : Anno → CompSt → Option (Routine × CompSt))
    (a : Anno) (st : CompSt) : Option (Routine × CompSt) :=
  match cacheFind st.cache a.ty a.optional with
  | some r => some (r, st)
  | none =>
    let cfg := a.serde.getD {}
    let tname := a.ty.tyName
    if !a.static then some (.primitive, st)
    else
      match a.ty with
      | .dynamic => some (.primitive, st)
      | .union _ => some (.primitive, st)
      | .opt _ => some (.primitive, st)
      | .enumT _ vals =>
        match distinctTys vals with
        | [t] =>
          match rec (resolveAnno t cfg) st with
          | none => none
          | some (vr, st') => some (.enumR vr st'.next, ⟨st'.cache, st'.next + 1⟩)
        | _ => some (.primitive, st)
      | .prim p =>
        let r := Routine.primR p a.optional tname st.next
        some (r, ⟨((a.ty, a.optional), r) :: st.cache, st.next + 1⟩)
      | .primSub sub p =>
        some (.castR sub p a.optional tname st.next, ⟨st.cache, st.next + 1⟩)
      | .defined d =>
        some (.definedR d a.optional tname st.next, ⟨st.cache, st.next + 1⟩)
      | .definedSub _ d =>
        some (.definedR d a.optional tname st.next, ⟨st.cache, st.next + 1⟩)
      | .listU =>
        let r := Routine.listRU a.optional tname st.next
        some (r, ⟨((a.ty, a.optional), r) :: st.cache, st.next + 1⟩)
      | .listT et =>
        match rec (resolveAnno et cfg) st with
        | none => none
        | some (er, st') =>
          let r := Routine.listRT er a.optional tname st'.next
          some (r, ⟨((a.ty, a.optional), r) :: st'.cache, st'.next + 1⟩)
      | .dictU =>
        let r := Routine.dictR cfg.fieldsOut cfg.case .primitive .primitive
          cfg.omitValues a.optional tname st.next
        some (r, ⟨((a.ty, a.optional), r) :: st.cache, st.next + 1⟩)
      | .dictT kt vt =>
        match rec (resolveAnno kt cfg) st with
        | none => none
        | some (kr, st1) =>
          match rec (resolveAnno vt cfg) st1 with
          | none => none
          | some (vr, st2) =>
            let r := Routine.dictR cfg.fieldsOut cfg.case kr vr
              cfg.omitValues a.optional tname st2.next
            some (r, ⟨((a.ty, a.optional), r) :: st2.cache, st2.next + 1⟩)
      | .record rname =>
        let fields := ((env.find rname).getD ⟨[]⟩).fields
        match compileFields rec cfg fields st with
        | none => none
        | some (fsers, st') =>
          let r := Routine.classR rname
            (toRFields (renameClassFields cfg.fieldsOut fsers))
            cfg.omitValues a.optional tname st'.next
          some (r, ⟨((a.ty, a.optional), r) :: st'.cache, st'.next + 1⟩)

/-- `SerFactory._compile_serializer`. Fuel bounds the recursion depth of
nested compilation; `none` means the Python code recurses past any bound
without producing a routine. -/
def compileSer (env : Env) : Nat → Anno → CompSt → Option (Routine × CompSt)
  | 0, _, _ => none
  | fuel + 1, a, st => compileStep env (compileSer env fuel) a st

/-- The annotation after `SerFactory.factory` ran on it:
`annotation.serde = annotation.serde or SerdeConfig()` installs the default
(empty) configuration in place when none is attached. -/
def factoryPrep (a : Anno) : Anno := { a with serde := some (a.serde.getD {}) }

/-- `SerFactory.factory`: normalize the serde configuration on the
annotation (mutating it), then compile. -/
def factory (env : Env) (fuel : Nat) (a : Anno) (st : CompSt) :
    Option (Routine × CompSt) :=
  compileSer env fuel (factoryPrep a) st

/-- Compile an annotation from a fresh factory and invoke the routine,
fully materializing the result (reading every key/element of any lazy
wrapper). -/
def serializeVal (env : Env) (fuel : Nat) (a : Anno) (v : PVal) (lazy : Bool) :
    Option (Except SerErr PVal) :=
  match compileSer env fuel a ⟨[], 0⟩ with
  | none => none
  | some (r, _) =>
    match runSer fuel r v lazy none with
    | none => none
    | some (.error e) => some (.error e)
    | some (.ok lv) => some (.ok lv.mat)

end Typical
namespace Typical

/-- `inflection.camelize` as `SchemaBuilder.defname` applies it: capitalize
the leading character (the underscore handling of `inflection` is not
exercised by any name in this development). -/
def camelize (s : String) : String := s.capitalize

/-- `SchemaBuilder.defname(obj, name)`: the given name wins over the
object's own name; the result is camelized. -/
def defname (objName : String) (name : Option String) : String :=
  camelize (name.getD objName)

/-- Structural equality of serde configurations. -/
def SerdeCfg.beq (a b : SerdeCfg) : Bool :=
  a.fieldsOut == b.fieldsOut && PList.beq a.omitValues b.omitValues && a.case == b.case

/-- Structural equality of annotations (dataclass equality of
`Annotation`, the key of the schema builder's field cache and of its
recursion-guard stack). -/
def Anno.beq (a b : Anno) : Bool :=
  PTy.beq a.ty b.ty && a.optional == b.optional && a.static == b.static
    && (match a.serde, b.serde with
        | none, none => true
        | some x, some y => SerdeCfg.beq x y
        | _, _ => false)

mutual
/-- A node of the structural schema document
(`typic/ext/schema/field.py`): a `#/definitions/...` reference pointer, the
primitive field kinds, the undeclared placeholder, an array schema, an
object schema (`title`, `properties`, `required`, whether additional
properties are allowed, an optional additional-properties sub-schema
(empty or singleton list), and the hoisted `definitions` registry), or an
any-of composite (`MultiSchemaField`). Constraint decorations (enum,
default, read-only/write-only, numeric bounds) are not consumed by the
verified properties and are not modelled. -/
inductive SchemaField where
  | ref (path : String)
  | strF
  | intF
  | boolF
  | numF
  | nullF
  | undeclared
  | arrF (items : SList)
  | objS (title : Option String) (props : SFields) (required : List String)
      (addlOpen : Bool) (addlSchema : SList) (defs : SFields)
  | multi (title : Option String) (anyOf : SList)
  deriving Repr

inductive SFields where
  | nil
  | cons (name : String) (f : SchemaField) (tl : SFields)
  deriving Repr

inductive SList where
  | nil
  | cons (hd : SchemaField) (tl : SList)
  deriving Repr
end

mutual
/-- Structural equality of schema nodes. -/
def SchemaField.beq : SchemaField → SchemaField → Bool
  | .ref p, .ref q => p == q
  | .strF, .strF => true
  | .intF, .intF => true
  | .boolF, .boolF => true
  | .numF, .numF => true
  | .nullF, .nullF => true
  | .undeclared, .undeclared => true
  | .arrF a, .arrF b => SList.beq a b
  | .objS t p r ao as_ d, .objS t' p' r' ao' as_' d' =>
    t == t' && SFields.beq p p' && r == r' && ao == ao'
      && SList.beq as_ as_' && SFields.beq d d'
  | .multi t a, .multi t' a' => t == t' && SList.beq a a'
  | _, _ => false
termination_by structural v => v

def SFields.beq : SFields → SFields → Bool
  | .nil, .nil => true
  | .cons n f tl, .cons n' f' tl' => n == n' && SchemaField.beq f f' && SFields.beq tl tl'
  | _, _ => false
termination_by structural v => v

def SList.beq : SList → SList → Bool
  | .nil, .nil => true
  | .cons x xs, .cons y ys => SchemaField.beq x y && SList.beq xs ys
  | _, _ => false
termination_by structural v => v
end

/-- Append the entries of one definitions registry to another
(`definitions.update(...)`; later keys overwrite, but the hoisting scheme
makes keys unique per run, so append preserves the content). -/
def SFields.append : SFields → SFields → SFields
  | .nil, ys => ys
  | .cons n f tl, ys => .cons n f (SFields.append tl ys)

/-- Look up a property by name. -/
def SFields.find : SFields → String → Option SchemaField
  | .nil, _ => none
  | .cons n f tl, x => if n == x then some f else SFields.find tl x

mutual
/-- `SchemaBuilder._flatten_definitions`: whenever a field's schema is a
named object schema, hoist it (and its own definitions) into the shared
registry and replace it by a reference pointer; descend into array items
(only a bare single-schema `items` is an instance of the checked classes —
a tuple of schemas is left in place, as in the source) and into the members
of an any-of composite. Returns the rewritten field and the grown
registry. -/
def flattenDefs (defs : SFields) : SchemaField → SchemaField × SFields
  | .objS t p r ao as_ d =>
    let defs' := SFields.append defs d
    let nm := t.getD ""
    (.ref ("#/definitions/" ++ nm), .cons nm (.objS t p r ao as_ .nil) defs')
  | .arrF (.cons it .nil) =>
    let res := flattenDefs defs it
    (.arrF (.cons res.1 .nil), res.2)
  | .multi t members =>
    let res := flattenList defs members
    (.multi t res.1, res.2)
  | f => (f, defs)
termination_by structural v => v

def flattenList (defs : SFields) : SList → SList × SFields
  | .nil => (.nil, defs)
  | .cons x xs =>
    let r1 := flattenDefs defs x
    let r2 := flattenList r1.2 xs
    (.cons r1.1 r2.1, r2.2)
termination_by structural v => v
end

/-- The schema builder's instance state: the `get_field` cache keyed by
annotation, the `build_schema` cache keyed by type, and the recursion-guard
stack of annotations currently being resolved. -/
structure SchSt where
  fcache : List (Anno × SchemaField) := []
  bcache : List (String × SchemaField) := []
  stack : List Anno := []
  deriving Repr

/-- Look up an annotation in the field cache / the stack. -/
def fcacheFind : List (Anno × SchemaField) → Anno → Option SchemaField
  | [], _ => none
  | (a, f) :: tl, x => if Anno.beq a x then some f else fcacheFind tl x

/-- Membership of an annotation in the recursion-guard stack. -/
def stackMem : List Anno → Anno → Bool
  | [], _ => false
  | a :: tl, x => Anno.beq a x || stackMem tl x

/-- Schema build result: `none` models unbounded recursion, `some (.error ())`
a raised `ValueError`/`TypeError` (schema-build failure), `some (.ok _)` a
built schema with the updated builder state. -/
abbrev OSch := Option (Except Unit (SchemaField × SchSt))

/-- The `SCHEMA_FIELD_FORMATS.get_by_parent(use)` base schema for types
that have one (primitives and their subclasses, defined types — whose
formats are string-like — and container types); `none` for structured
records, which fall back to `build_schema`. Enum annotations are outside
the modelled fragment. -/
def baseSchema : PTy → Option SchemaField
  | .prim .pstr => some .strF
  | .prim .pint => some .intF
  | .prim .pbool => some .boolF
  | .prim .pfloat => some .numF
  | .prim .pnone => some .nullF
  | .primSub _ .pstr => some .strF
  | .primSub _ .pint => some .intF
  | .primSub _ .pbool => some .boolF
  | .primSub _ .pfloat => some .numF
  | .primSub _ .pnone => some .nullF
  | .defined _ => some .strF
  | .definedSub _ _ => some .strF
  | .listU => some (.arrF .nil)
  | .listT _ => some (.arrF .nil)
  | .dictU => some (.objS none .nil [] true .nil .nil)
  | .dictT _ _ => some (.objS none .nil [] true .nil .nil)
  | _ => none

/-- Union-branch member loop of `get_field`: a member that *is* the parent
class becomes a reference pointer built from `name or get_name(t)` — note
the field name passed as `name` wins over the record's own name, and no
camelization is applied; every other member is resolved recursively with
no name. -/
def unionMembers (g : Anno → SchSt → OSch) (name : Option String)
    (parent : Option String) : PTyList → SchSt → Option (Except Unit (SList × SchSt))
  | .nil, st => some (.ok (.nil, st))
  | .cons t tl, st =>
    let isParent := match t, parent with
      | .record r, some p => r == p
      | _, _ => false
    if isParent then
      let n := name.getD t.tyName
      match unionMembers g name parent tl st with
      | none => none
      | some (.error e) => some (.error e)
      | some (.ok (rest, st')) =>
        some (.ok (.cons (.ref ("#/definitions/" ++ n)) rest, st'))
    else
      match g (resolveAnno t {}) st with
      | none => none
      | some (.error e) => some (.error e)
      | some (.ok (f, st')) =>
        match unionMembers g name parent tl st' with
        | none => none
        | some (.error e) => some (.error e)
        | some (.ok (rest, st'')) => some (.ok (.cons f rest, st''))

/-- `build_schema`'s per-field loop: a field whose resolved origin *is* the
record being built becomes a reference pointer to the record's own
definition name without recursing; any other field is resolved through
`get_field` (with the field name as `name` and the record as `parent`) and
its named sub-schemas are hoisted into the local definitions registry.
Fields without a default are collected as required. -/
def buildFieldsLoop (g : Anno → String → SchSt → OSch) (rname : String) :
    List RecField → SchSt → SFields → List String → SFields →
    Option (Except Unit ((SFields × List String × SFields) × SchSt))
  | [], st, props, required, defs => some (.ok ((props, required, defs), st))
  | fd :: rest, st, props, required, defs =>
    let fanno := resolveAnno fd.fty {}
    let required' := if fd.hasDefault then required else required ++ [fd.fname]
    if PTy.beq fanno.ty (.record rname) then
      let flattened := SchemaField.ref ("#/definitions/" ++ defname rname none)
      buildFieldsLoop g rname rest st
        (props.append (.cons fd.fname flattened .nil)) required' defs
    else
      match g fanno fd.fname st with
      | none => none
      | some (.error e) => some (.error e)
      | some (.ok (field, st')) =>
        let fl := flattenDefs defs field
        buildFieldsLoop g rname rest st'
          (props.append (.cons fd.fname fl.1 .nil)) required' fl.2

mutual
/-- `SchemaBuilder.get_field` (restricted to the branches the verified
verified properties traverse; read-only/write-only unwrapping, enum unwrapping and
constraint decoration are outside the modelled fragment).

Faithful control flow: a stack hit returns a reference pointer built from
`defname(resolved_origin, name)` without touching the state; otherwise the
annotation is pushed on the stack, the cache is consulted, and then the
`Any`-like, union, base-format and record-fallback branches run. Note that
only the base-format and record-fallback branches clear the recursion
stack before returning; the early returns (stack hit, cache hit, `Any`,
union) leave it in place. -/
def getFieldF (env : Env) :
    Nat → Anno → Option String → Option String → SchSt → OSch
  | 0, _, _, _, _ => none
  | fuel + 1, a, name, parent, st =>
    if stackMem st.stack a then
      some (.ok (.ref ("#/definitions/" ++ defname a.ty.tyName name), st))
    else
      let st := { st with stack := a :: st.stack }
      match fcacheFind st.fcache a with
      | some f => some (.ok (f, st))
      | none =>
        match a.ty with
        | .dynamic =>
          some (.ok (.undeclared, { st with fcache := (a, .undeclared) :: st.fcache }))
        | .union args =>
          match unionMembers (fun a' st' => getFieldF env fuel a' none parent st')
              name parent args st with
          | none => none
          | some (.error e) => some (.error e)
          | some (.ok (members, st')) =>
            let schema := SchemaField.multi (name.map camelize) members
            some (.ok (schema, { st' with fcache := (a, schema) :: st'.fcache }))
        | ty =>
          match baseSchema ty with
          | some b =>
            match ty with
            | .dictT _ vt =>
              match getFieldF env fuel (resolveAnno vt {}) none parent st with
              | none => none
              | some (.error e) => some (.error e)
              | some (.ok (vf, st')) =>
                let schema := SchemaField.objS (some (defname ty.tyName name)) .nil []
                  true (.cons vf .nil) .nil
                some (.ok (schema,
                  { st' with fcache := (a, schema) :: st'.fcache, stack := [] }))
            | .dictU =>
              let schema := SchemaField.objS (some (defname ty.tyName name)) .nil []
                true .nil .nil
              some (.ok (schema, { st with fcache := (a, schema) :: st.fcache, stack := [] }))
            | .listT et =>
              match getFieldF env fuel (resolveAnno et {}) none parent st with
              | none => none
              | some (.error e) => some (.error e)
              | some (.ok (itf, st')) =>
                let schema := SchemaField.arrF (.cons itf .nil)
                some (.ok (schema,
                  { st' with fcache := (a, schema) :: st'.fcache, stack := [] }))
            | _ =>
              some (.ok (b, { st with fcache := (a, b) :: st.fcache, stack := [] }))
          | none =>
            match ty with
            | .record rname =>
              match buildSchemaF env fuel rname (some (defname rname name)) st with
              | none => none
              | some (.error _) =>
                some (.ok (.undeclared,
                  { st with fcache := (a, .undeclared) :: st.fcache, stack := [] }))
              | some (.ok (schema, st')) =>
                some (.ok (schema,
                  { st' with fcache := (a, schema) :: st'.fcache, stack := [] }))
            | _ =>
              some (.error ())
    termination_by structural fuel => fuel

/-- `SchemaBuilder.build_schema`: consult the per-type cache, walk the
record's resolved field protocols emitting a self-reference pointer for any
field whose resolved origin is the record itself, hoist nested named
schemas into the definitions registry, and assemble the object schema
(`additionalProperties=False`, required in declaration order). A type
without a record declaration raises (`TypeError`), which `get_field`
catches. -/
def buildSchemaF (env : Env) :
    Nat → String → Option String → SchSt → OSch
  | 0, _, _, _ => none
  | fuel + 1, rname, name, st =>
    match st.bcache.lookup rname with
    | some f => some (.ok (f, st))
    | none =>
      match env.find rname with
      | none => some (.error ())
      | some rdef =>
        match buildFieldsLoop (fun a' nm st' => getFieldF env fuel a' (some nm) (some rname) st')
            rname rdef.fields st .nil [] .nil with
        | none => none
        | some (.error e) => some (.error e)
        | some (.ok ((props, required, defs), st')) =>
          let schema := SchemaField.objS (some (defname rname name)) props required
            false .nil defs
          some (.ok (schema, { st' with bcache := (rname, schema) :: st'.bcache }))
    termination_by structural fuel => fuel
end

end Typical
namespace Typical

/-- Length of a dict. -/
def PPairs.len : PPairs → Nat
  | .nil => 0
  | .cons _ _ tl => tl.len + 1

/-- Whether a materialized mapping has an entry under the given string key. -/
def PPairs.hasKeyStr : PPairs → String → Bool
  | .nil, _ => false
  | .cons k _ tl, y => PVal.beq k (.vstr y) || tl.hasKeyStr y

/-- Whether `(outName, attr, ser)` is one of a class serializer's fields. -/
def RFields.hasField : RFields → String → String → Routine → Bool
  | .nil, _, _, _ => false
  | .cons y a s tl, y', a', s' =>
    (y == y' && a == a' && Routine.beq s s') || tl.hasField y' a' s'

/-- The serialized (out) names of a class serializer's fields, in order. -/
def RFields.outNames : RFields → List String
  | .nil => []
  | .cons y _ _ tl => y :: tl.outNames

/-- The field names of a class dict, in order. -/
def LFields.names : LFields → List String
  | .nil => []
  | .consOmitted y tl => y :: tl.names
  | .consVal y _ tl => y :: tl.names

/-- String membership in a name list. -/
def strsContain : List String → String → Bool
  | [], _ => false
  | x :: xs, y => x == y || strsContain xs y

/-- Pairwise distinctness of a name list. -/
def strNodup : List String → Bool
  | [] => true
  | x :: xs => !strsContain xs x && strNodup xs

/-- Whether a value is a container (list, dict or instance): the values for
which CPython's `==` against a lazily stored wrapper can disagree with `==`
against the materialized value. -/
def PVal.isContainer : PVal → Bool
  | .vlist _ => true
  | .vdict _ => true
  | .vinst _ _ => true
  | _ => false

/-- Every member of an omit tuple is a non-container value. -/
def PList.allScalar : PList → Bool
  | .nil => true
  | .cons x xs => !x.isContainer && xs.allScalar

mutual
/-- A routine whose omit tuples (at every nesting level) contain only
non-container values. -/
def Routine.goodOmits : Routine → Bool
  | .primitive => true
  | .primR _ _ _ _ => true
  | .definedR _ _ _ _ => true
  | .castR _ _ _ _ _ => true
  | .enumR inner _ => inner.goodOmits
  | .listRU _ _ _ => true
  | .listRT e _ _ _ => e.goodOmits
  | .dictR _ _ k v omits _ _ _ => omits.allScalar && k.goodOmits && v.goodOmits
  | .classR _ flds omits _ _ _ => omits.allScalar && flds.goodOmits
termination_by structural v => v

def RFields.goodOmits : RFields → Bool
  | .nil => true
  | .cons _ _ s tl => s.goodOmits && tl.goodOmits
termination_by structural v => v
end

/-- Materialize an invocation result. -/
def matOE (o : OE LVal) : OE PVal :=
  Option.map (Except.map LVal.mat) o

mutual
/-- Structural value equality is reflexive. -/
theorem pvalBeqRefl : (v : PVal) → PVal.beq v v = true
  | .vnone => rfl
  | .vbool b => by simp [PVal.beq]
  | .vint n => by simp [PVal.beq]
  | .vstr s => by simp [PVal.beq]
  | .vfloat q => by simp [PVal.beq]
  | .vdefined d a => by simp [PVal.beq, pvalBeqRefl a]
  | .venum n a => by simp [PVal.beq, pvalBeqRefl a]
  | .vlist xs => by simp [PVal.beq, plistBeqRefl xs]
  | .vdict xs => by simp [PVal.beq, ppairsBeqRefl xs]
  | .vinst c xs => by simp [PVal.beq, pfieldsBeqRefl xs]
  | .vomit => rfl
termination_by structural v => v

theorem plistBeqRefl : (v : PList) → PList.beq v v = true
  | .nil => rfl
  | .cons x xs => by simp [PList.beq, pvalBeqRefl x, plistBeqRefl xs]
termination_by structural v => v

theorem ppairsBeqRefl : (v : PPairs) → PPairs.beq v v = true
  | .nil => rfl
  | .cons k x xs => by simp [PPairs.beq, pvalBeqRefl k, pvalBeqRefl x, ppairsBeqRefl xs]
termination_by structural v => v

theorem pfieldsBeqRefl : (v : PFields) → PFields.beq v v = true
  | .nil => rfl
  | .cons n x xs => by simp [PFields.beq, pvalBeqRefl x, pfieldsBeqRefl xs]
termination_by structural v => v
end

mutual
/-- Structural type equality is reflexive. -/
theorem ptyBeqRefl : (t : PTy) → PTy.beq t t = true
  | .prim p => by simp [PTy.beq]
  | .primSub n p => by simp [PTy.beq]
  | .defined d => by simp [PTy.beq]
  | .definedSub n d => by simp [PTy.beq]
  | .dynamic => rfl
  | .union xs => by simp [PTy.beq, ptyListBeqRefl xs]
  | .enumT n vs => by simp [PTy.beq, plistBeqRefl vs]
  | .listU => rfl
  | .listT a => by simp [PTy.beq, ptyBeqRefl a]
  | .dictU => rfl
  | .dictT k v => by simp [PTy.beq, ptyBeqRefl k, ptyBeqRefl v]
  | .record r => by simp [PTy.beq]
  | .opt a => by simp [PTy.beq, ptyBeqRefl a]
termination_by structural v => v

theorem ptyListBeqRefl : (ts : PTyList) → PTyList.beq ts ts = true
  | .nil => rfl
  | .cons x xs => by simp [PTyList.beq, ptyBeqRefl x, ptyListBeqRefl xs]
termination_by structural v => v
end

/-- A cache entry just written is found. -/
theorem cacheFind_head (c : List ((PTy × Bool) × Routine)) (ty : PTy) (opt : Bool)
    (r : Routine) : cacheFind (((ty, opt), r) :: c) ty opt = some r := by
  simp [cacheFind, ptyBeqRefl]

end Typical
namespace Typical

/-! ### Concrete fixtures used by the verification theorems -/

/-- A record type with a field typed as the record itself. -/
def envNode : Env := [("Node", ⟨[⟨"child", .record "Node", false⟩]⟩)]

/-- The resolved annotation of the self-referential record. -/
def nodeAnno : Anno := ⟨.record "Node", false, true, some {}⟩

/-- A defined-conversion annotation (`uuid.UUID`). -/
def uuidAnno : Anno := ⟨.defined .uuidT, false, true, none⟩

/-- `List[str]` with omit-set `{"SKIP"}`. -/
def listOmitAnno : Anno :=
  ⟨.listT (.prim .pstr), false, true, some { omitValues := .cons (.vstr "SKIP") .nil }⟩

/-- `Dict[str, Dict[str, int]]` with the container value `{"a": 1}` in the
omit set. -/
def nestAnno : Anno :=
  ⟨.dictT (.prim .pstr) (.dictT (.prim .pstr) (.prim .pint)), false, true,
    some { omitValues := .cons (.vdict (.cons (.vstr "a") (.vint 1) .nil)) .nil }⟩

/-- `{"k": {"a": 1}}`. -/
def nestVal : PVal :=
  .vdict (.cons (.vstr "k") (.vdict (.cons (.vstr "a") (.vint 1) .nil)) .nil)

/-- `Optional[Color]` for an enum whose members all hold `int` values. -/
def optEnumAnno : Anno :=
  ⟨.enumT "Color" (.cons (.vint 1) (.cons (.vint 2) .nil)), true, true, none⟩

/-- `Dict[str, int]` with a field-name-out mapping sending both `a` and `b`
to `x`. -/
def collideAnno : Anno :=
  ⟨.dictT (.prim .pstr) (.prim .pint), false, true,
    some { fieldsOut := [("a", "x"), ("b", "x")] }⟩

/-- `{"a": 1, "b": 2}`. -/
def collideVal : PVal :=
  .vdict (.cons (.vstr "a") (.vint 1) (.cons (.vstr "b") (.vint 2) .nil))

/-- A two-field record used with omit-set `{"SKIP"}`. -/
def envRecR : Env := [("R", ⟨[⟨"a", .prim .pstr, false⟩, ⟨"b", .prim .pstr, false⟩]⟩)]

/-- The annotation of `R` with omit-set `{"SKIP"}`. -/
def recROmitAnno : Anno :=
  ⟨.record "R", false, true, some { omitValues := .cons (.vstr "SKIP") .nil }⟩

/-- An instance of `R` whose field `a` holds the omit sentinel. -/
def recRVal : PVal :=
  .vinst "R" (.cons "a" (.vstr "SKIP") (.cons "b" (.vstr "keep") .nil))

/-- A self-referential record with a second primitive field, for the schema
builder. -/
def envNodeL : Env :=
  [("Node", ⟨[⟨"child", .record "Node", false⟩, ⟨"label", .prim .pstr, false⟩]⟩)]

/-- A record whose `alt` field is `Union["NodeU", int]`. -/
def envU : Env :=
  [("NodeU", ⟨[⟨"label", .prim .pstr, false⟩,
    ⟨"alt", .union (.cons (.record "NodeU") (.cons (.prim .pint) .nil)), false⟩]⟩)]

/-! ### C10 -/

/-- C10: when the key pipeline maps two distinct raw keys to the same
serialized key (here a `fields_out` mapping sending both `"a"` and `"b"` to
`"x"`), the wrapper and the materialized output (eager and lazy alike)
contain a single entry for that key, holding the later input entry's value
(`2`, from `"b"`): the later entry silently overwrites the earlier, so the
output has fewer entries (1) than the input (2). -/
theorem C10_key_collision_overwrites :
    serializeVal [] 5 collideAnno collideVal false =
      some (.ok (.vdict (.cons (.vstr "x") (.vint 2) .nil))) ∧
    serializeVal [] 5 collideAnno collideVal true =
      some (.ok (.vdict (.cons (.vstr "x") (.vint 2) .nil))) ∧
    PPairs.len (.cons (.vstr "a") (.vint 1) (.cons (.vstr "b") (.vint 2) .nil)) = 2 ∧
    PPairs.len (.cons (.vstr "x") (.vint 2) .nil) = 1 :=
  ⟨rfl, rfl, rfl, rfl⟩

end Typical
namespace Typical

/-! ### C1: divergence of compilation for self-referential records -/

/-- `_compile_serializer` writes its cache entry only *after*
`_build_class_serializer` has compiled the per-field serializers, so a
record whose (first) field is typed as the record itself recompiles the
same normalized signature before any entry exists, at every recursion
depth: no fuel suffices. -/
theorem selfrefCompileAux : ∀ (fuel : Nat) (env : Env) (rname fname : String) (b : Bool)
    (rest : List RecField) (rdef : RecordDef) (cfg : SerdeCfg) (st : CompSt),
    env.find rname = some rdef →
    rdef.fields = ⟨fname, .record rname, b⟩ :: rest →
    cacheFind st.cache (.record rname) false = none →
    compileSer env fuel ⟨.record rname, false, true, some cfg⟩ st = none := by
  intro fuel
  induction fuel with
  | zero => intros; rfl
  | succ n ih =>
    intro env rname fname b rest rdef cfg st hfind hfields hcache
    show compileStep env (compileSer env n) ⟨.record rname, false, true, some cfg⟩ st = none
    have hrec : compileSer env n ⟨.record rname, false, true, some cfg⟩ st = none :=
      ih env rname fname b rest rdef cfg st hfind hfields hcache
    simp only [compileStep, hcache, hfind, hfields, resolveAnno, PTy.stripOpt,
      compileFields, hrec, Option.getD_some, Bool.not_true, if_neg, Bool.false_eq_true,
      not_false_eq_true, reduceIte]

/-- C1 counterexample: compiling the directly self-referential record
`Node {child: Node}` from a fresh factory state never produces a routine:
the claimed termination fails. -/
theorem C1_counterexample :
    ¬ ∃ (fuel : Nat) (out : Routine × CompSt),
      compileSer envNode fuel nodeAnno ⟨[], 0⟩ = some out := by
  rintro ⟨fuel, out, h⟩
  have hnone := selfrefCompileAux fuel envNode "Node" "child" false []
    ⟨[⟨"child", .record "Node", false⟩]⟩ {} ⟨[], 0⟩ rfl rfl rfl
  simp only [nodeAnno] at h
  rw [hnone] at h
  exact Option.noConfusion h

/-- C1 (amended): the serializer cache entry for a structured record is
registered only after the per-field serializers are compiled, so for every
record type whose first field is typed as the record itself (and whose
signature is not already cached), `compile` recurses without bound and
never terminates. -/
theorem C1_selfref_compile_diverges (fuel : Nat) (env : Env) (rname fname : String)
    (b : Bool) (rest : List RecField) (rdef : RecordDef) (cfg : SerdeCfg) (st : CompSt)
    (hfind : env.find rname = some rdef)
    (hfields : rdef.fields = ⟨fname, .record rname, b⟩ :: rest)
    (hcache : cacheFind st.cache (.record rname) false = none) :
    compileSer env fuel ⟨.record rname, false, true, some cfg⟩ st = none :=
  selfrefCompileAux fuel env rname fname b rest rdef cfg st hfind hfields hcache

/-- Witness for C1: the divergence theorem applied to the concrete record
`Node {child: Node}` at fuel 9 from the empty factory state. -/
theorem C1_selfref_compile_diverges_witness :
    compileSer envNode 9 ⟨.record "Node", false, true, some {}⟩ ⟨[], 0⟩ = none :=
  C1_selfref_compile_diverges 9 envNode "Node" "child" false []
    ⟨[⟨"child", .record "Node", false⟩]⟩ {} ⟨[], 0⟩ rfl rfl rfl

/-! ### C2 counterexample: the defined branch neither caches nor reuses -/

/-- C2 counterexample: compiling the defined-conversion annotation
`uuid.UUID` twice (the second call starting from the state the first
returned) builds two distinct routine objects, and the signature is still
absent from the serializer cache after the first call — the claimed
cache-identity fails for the defined-conversion branch. -/
theorem C2_counterexample :
    compileSer [] 1 uuidAnno ⟨[], 0⟩ =
      some (.definedR .uuidT false "UUID" 0, ⟨[], 1⟩) ∧
    compileSer [] 1 uuidAnno ⟨[], 1⟩ =
      some (.definedR .uuidT false "UUID" 1, ⟨[], 2⟩) ∧
    Routine.beq (.definedR .uuidT false "UUID" 0) (.definedR .uuidT false "UUID" 1) = false ∧
    cacheFind ([] : List ((PTy × Bool) × Routine)) (.defined .uuidT) false = none :=
  ⟨rfl, rfl, rfl, rfl⟩

/-! ### C3 counterexample: `SerList` never consults its omit set -/

/-- C3 counterexample: for the list wrapper configured with omit-set
`{"SKIP"}`, an element equal to `"SKIP"` (a member of the omit set) is
still present in the materialized output, eagerly and lazily: `SerList`
never consults its `omit` attribute. -/
theorem C3_counterexample :
    PList.pyMem (.vstr "SKIP") (.cons (.vstr "SKIP") .nil) = true ∧
    serializeVal [] 5 listOmitAnno (.vlist (.cons (.vstr "SKIP") .nil)) false =
      some (.ok (.vlist (.cons (.vstr "SKIP") .nil))) ∧
    serializeVal [] 5 listOmitAnno (.vlist (.cons (.vstr "SKIP") .nil)) true =
      some (.ok (.vlist (.cons (.vstr "SKIP") .nil))) :=
  ⟨rfl, rfl, rfl⟩

/-! ### C4 counterexample: `SerList` construction serializes eagerly -/

/-- C4 counterexample: invoking the compiled `List[int]` routine with
`lazy=True` on `["bad"]` raises the element's type-mismatch error already
at the invocation that merely constructs the wrapper — element
serialization happens at construction time, not on first access, so no
element state ever starts as `Unprocessed`. -/
theorem C4_counterexample :
    compileSer [] 3 ⟨.listT (.prim .pint), false, true, none⟩ ⟨[], 0⟩ =
      some (.listRT (.primR .pint false "int" 0) false "list" 1,
        ⟨[((.listT (.prim .pint), false), .listRT (.primR .pint false "int" 0) false "list" 1),
          ((.prim .pint, false), .primR .pint false "int" 0)], 2⟩) ∧
    runSer 3 (.listRT (.primR .pint false "int" 0) false "list" 1)
      (.vlist (.cons (.vstr "bad") .nil)) true none =
      some (.error (.typeMismatch "list[0]: " "str" "int" true)) :=
  ⟨rfl, rfl⟩

/-! ### C5 counterexample: lazy and eager disagree on container omits -/

/-- C5 counterexample: for `Dict[str, Dict[str, int]]` with the container
value `{"a": 1}` in the omit set, the eager path compares the memoized
plain dict to the omit member and emits the `Omit` sentinel, while the lazy
path compares the unmaterialized wrapper (whose backing store still holds
`Unprocessed`) and does not match — the fully materialized lazy result
differs from the eager result on the same input. -/
theorem C5_counterexample :
    serializeVal [] 6 nestAnno nestVal false =
      some (.ok (.vdict (.cons (.vstr "k") .vomit .nil))) ∧
    serializeVal [] 6 nestAnno nestVal true =
      some (.ok (.vdict (.cons (.vstr "k")
        (.vdict (.cons (.vstr "a") (.vint 1) .nil)) .nil))) ∧
    PVal.beq (.vdict (.cons (.vstr "k") .vomit .nil))
      (.vdict (.cons (.vstr "k") (.vdict (.cons (.vstr "a") (.vint 1) .nil)) .nil)) = false :=
  ⟨rfl, rfl, rfl⟩

/-! ### C6 counterexample: the enum branch has no null check -/

/-- C6 counterexample: the routine compiled for `Optional[Color]` (an enum
whose members all hold `int` values) invoked on the null sentinel does not
return the null sentinel: the enum-branch closure reads `o.value` without a
null check and raises an `AttributeError`. -/
theorem C6_counterexample :
    serializeVal [] 5 optEnumAnno .vnone false = some (.error (.attrErr "value")) ∧
    serializeVal [] 5 optEnumAnno .vnone true = some (.error (.attrErr "value")) :=
  ⟨rfl, rfl⟩

/-! ### C8 counterexample: union self-reference points at the field name -/

/-- C8 counterexample: for the record `NodeU {label: str, alt: Union[NodeU,
int]}`, the schema emitted for the union member that is the record itself is
a reference built from the *field* name (`#/definitions/alt`), not the
record's own definition name (`#/definitions/NodeU`). -/
theorem C8_counterexample :
    (match buildSchemaF envU 6 "NodeU" none {} with
      | some (.ok (.objS _ props _ _ _ _, _)) => props.find "alt"
      | _ => none) =
      some (.multi (some "Alt") (.cons (.ref "#/definitions/alt") (.cons .intF .nil))) ∧
    ("#/definitions/alt" : String) ≠ "#/definitions/NodeU" :=
  ⟨rfl, by decide⟩

/-! ### C9: `factory` mutates an annotation lacking a serde configuration -/

/-- C9 counterexample: `factory` on an annotation with no attached serde
configuration installs the default configuration in place
(`annotation.serde = annotation.serde or SerdeConfig()`), so the annotation
observed after `compile` differs from the annotation passed in. -/
theorem C9_counterexample :
    Anno.beq (factoryPrep ⟨.prim .pint, false, true, none⟩)
      ⟨.prim .pint, false, true, none⟩ = false ∧
    (factoryPrep ⟨.prim .pint, false, true, none⟩).serde = some {} ∧
    (⟨.prim .pint, false, true, none⟩ : Anno).serde = none :=
  ⟨rfl, rfl, rfl⟩

/-- C9 (amended): for every annotation that already carries a serde
configuration, `factory`'s normalization is the identity — compilation
leaves the annotation unchanged; only an annotation with no configuration
is mutated (to carry the default empty configuration). -/
theorem C9_factory_preserves_configured (a : Anno) (c : SerdeCfg)
    (h : a.serde = some c) : factoryPrep a = a := by
  cases a with
  | mk ty opt st serde => cases serde <;> simp_all [factoryPrep]

/-- Witness for C9: the preservation theorem applied to a concrete
annotation carrying a configuration. -/
theorem C9_factory_preserves_configured_witness :
    factoryPrep ⟨.prim .pint, false, true, some {}⟩ =
      ⟨.prim .pint, false, true, some {}⟩ :=
  C9_factory_preserves_configured ⟨.prim .pint, false, true, some {}⟩ {} rfl

end Typical
namespace Typical

/-! ### C4 (amended): list-wrapper construction is eager -/

/-- C4 (amended): constructing the list wrapper serializes every element at
construction time — in lazy mode exactly as in eager mode — mapping the
fixed element serializer over the input in order (propagating any element
error immediately); the wrapper holds the already-serialized elements, so
no per-element state ever starts as an `Unprocessed` sentinel and element
access merely returns the precomputed value. -/
theorem C4_serlist_construction_is_eager (fuel : Nat) (er : Routine) (opt : Bool)
    (tname : String) (rid : Nat) (xs : PList) (lazy : Bool) (name : Option String) :
    runSer (fuel + 1) (.listRT er opt tname rid) (.vlist xs) lazy name =
      (match serElems (fun x i => runSer fuel er x lazy
          (some ((name.getD tname) ++ "[" ++ toString i ++ "]"))) xs 0 with
        | none => none
        | some (.error e) => some (.error e)
        | some (.ok l) => some (.ok (.wlist l))) := by
  cases opt <;> rfl

/-- Witness for C4: the characterization applied to a one-element `List[int]`
run: the wrapper returned by a lazy invocation already holds the serialized
element. -/
theorem C4_serlist_construction_is_eager_witness :
    runSer 2 (.listRT (.primR .pint false "int" 0) false "list" 1)
      (.vlist (.cons (.vint 7) .nil)) true none =
      some (.ok (.wlist (.cons (.base (.vint 7)) .nil))) := by
  rw [C4_serlist_construction_is_eager 1 (.primR .pint false "int" 0) false "list" 1
    (.cons (.vint 7) .nil) true none]
  rfl

/-! ### C7: primitive routines pass through and validate -/

/-- `exactPrim` implies `isinstance`. -/
theorem exactPrim_instOf (v : PVal) (p : PrimTy) (h : v.exactPrim = some p) :
    v.instOfPrim p = true := by
  cases v <;> cases p <;> simp_all [PVal.exactPrim, PVal.instOfPrim]

/-- C7: the routine compiled for a primitive type T ∈ {str, int, bool,
float} returns a value of exactly runtime type T unchanged, and on a value
of a different, non-subclass type raises the type-mismatch serialization
error carrying the actual and expected qualified type names and the
error-path prefix (the provided field path, or the type's own name). -/
theorem C7_primitive_roundtrip (env : Env) (p : PrimTy) (st : CompSt)
    (fuel fuel2 : Nat) (r : Routine) (st' : CompSt) (v : PVal) (lazy : Bool)
    (name : Option String)
    (_hnn : p ≠ .pnone)
    (hcache : cacheFind st.cache (.prim p) false = none)
    (hcomp : compileSer env (fuel + 1) ⟨.prim p, false, true, none⟩ st = some (r, st')) :
    (v.exactPrim = some p → runSer (fuel2 + 1) r v lazy name = some (.ok (.base v))) ∧
    (v.instOfPrim p = false → runSer (fuel2 + 1) r v lazy name =
      some (.error (.typeMismatch ((name.getD (PTy.prim p).tyName) ++ ": ")
        v.typeQualName (PTy.prim p).tyName true))) := by
  simp only [compileSer, compileStep, hcache, Bool.not_true, Bool.false_eq_true,
    reduceIte, Option.some.injEq, Prod.mk.injEq] at hcomp
  obtain ⟨hr, _⟩ := hcomp
  subst hr
  constructor
  · intro hex
    have hinst := exactPrim_instOf v p hex
    simp [runSer, runSerStep, hinst]
  · intro hninst
    simp [runSer, runSerStep, hninst]

/-- Witness for C7: the primitive `int` routine compiled from a fresh
factory passes an `int` through unchanged and rejects a `str` with the
type-mismatch error naming both types. -/
theorem C7_primitive_roundtrip_witness :
    runSer 1 (.primR .pint false "int" 0) (.vint 3) false none =
      some (.ok (.base (.vint 3))) ∧
    runSer 1 (.primR .pint false "int" 0) (.vstr "no") false none =
      some (.error (.typeMismatch "int: " "str" "int" true)) :=
  ⟨(C7_primitive_roundtrip [] .pint ⟨[], 0⟩ 0 0 (.primR .pint false "int" 0)
      ⟨[((.prim .pint, false), .primR .pint false "int" 0)], 1⟩ (.vint 3) false none
      (by decide) rfl rfl).1 rfl,
   (C7_primitive_roundtrip [] .pint ⟨[], 0⟩ 0 0 (.primR .pint false "int" 0)
      ⟨[((.prim .pint, false), .primR .pint false "int" 0)], 1⟩ (.vstr "no") false none
      (by decide) rfl rfl).2 rfl⟩

end Typical
namespace Typical

/-! ### C2 (amended): caching is idempotent on the branches that cache -/

/-- The dispatch branches of `_compile_serializer` that write the
serializer cache: the primitive branch and the generated-code branch for
container and structured-record types. -/
def cachedBranch (a : Anno) : Bool :=
  a.static && (match a.ty with
    | .prim _ => true
    | .listU => true
    | .listT _ => true
    | .dictU => true
    | .dictT _ _ => true
    | .record _ => true
    | _ => false)

/-- C2 (amended): for every annotation dispatched to a caching branch
(primitive, container or structured record), a second `compile` call with
the same normalized signature, starting from the state the first call
returned, returns the identical routine object with the state unchanged:
the routine was stored in the cache under the signature and the second
call is a cache hit. -/
theorem C2_cached_branch_idempotent
    (env : Env) (a : Anno) (st : CompSt) (fuel fuel2 : Nat) (r : Routine) (st' : CompSt)
    (hb : cachedBranch a = true)
    (h : compileSer env (fuel + 1) a st = some (r, st')) :
    compileSer env (fuel2 + 1) a st' = some (r, st') := by
  obtain ⟨ty, aopt, astat, aser⟩ := a
  have key : cacheFind st'.cache ty aopt = some r := by
    cases hc : cacheFind st.cache ty aopt with
    | some r0 =>
      simp only [compileSer, compileStep, hc, Option.some.injEq, Prod.mk.injEq] at h
      obtain ⟨hr, hst⟩ := h
      subst hst
      rw [← hr]
      exact hc
    | none =>
      cases astat with
      | false => simp [cachedBranch] at hb
      | true =>
        cases ty with
        | prim p =>
          simp only [compileSer, compileStep, hc, Bool.not_true, Bool.false_eq_true,
            reduceIte, Option.some.injEq, Prod.mk.injEq] at h
          obtain ⟨hr, hst⟩ := h
          subst hr; subst hst
          exact cacheFind_head _ _ _ _
        | listU =>
          simp only [compileSer, compileStep, hc, Bool.not_true, Bool.false_eq_true,
            reduceIte, Option.some.injEq, Prod.mk.injEq] at h
          obtain ⟨hr, hst⟩ := h
          subst hr; subst hst
          exact cacheFind_head _ _ _ _
        | listT et =>
          simp only [compileSer, compileStep, hc, Bool.not_true, Bool.false_eq_true,
            reduceIte] at h
          split at h
          · exact Option.noConfusion h
          · simp only [Option.some.injEq, Prod.mk.injEq] at h
            obtain ⟨hr, hst⟩ := h
            subst hr; subst hst
            exact cacheFind_head _ _ _ _
        | dictU =>
          simp only [compileSer, compileStep, hc, Bool.not_true, Bool.false_eq_true,
            reduceIte, Option.some.injEq, Prod.mk.injEq] at h
          obtain ⟨hr, hst⟩ := h
          subst hr; subst hst
          exact cacheFind_head _ _ _ _
        | dictT kt vt =>
          simp only [compileSer, compileStep, hc, Bool.not_true, Bool.false_eq_true,
            reduceIte] at h
          split at h
          · exact Option.noConfusion h
          · split at h
            · exact Option.noConfusion h
            · simp only [Option.some.injEq, Prod.mk.injEq] at h
              obtain ⟨hr, hst⟩ := h
              subst hr; subst hst
              exact cacheFind_head _ _ _ _
        | record rname =>
          simp only [compileSer, compileStep, hc, Bool.not_true, Bool.false_eq_true,
            reduceIte] at h
          split at h
          · exact Option.noConfusion h
          · simp only [Option.some.injEq, Prod.mk.injEq] at h
            obtain ⟨hr, hst⟩ := h
            subst hr; subst hst
            exact cacheFind_head _ _ _ _
        | primSub n p => simp [cachedBranch] at hb
        | defined d => simp [cachedBranch] at hb
        | definedSub n d => simp [cachedBranch] at hb
        | dynamic => simp [cachedBranch] at hb
        | union args => simp [cachedBranch] at hb
        | enumT n vals => simp [cachedBranch] at hb
        | opt t => simp [cachedBranch] at hb
  simp only [compileSer, compileStep, key]

/-- Witness for C2 (amended): compiling `int` twice returns the identical
cached routine object with the state unchanged on the second call. -/
theorem C2_cached_branch_idempotent_witness :
    compileSer [] 1 ⟨.prim .pint, false, true, none⟩
      ⟨[((.prim .pint, false), .primR .pint false "int" 0)], 1⟩ =
      some (.primR .pint false "int" 0,
        ⟨[((.prim .pint, false), .primR .pint false "int" 0)], 1⟩) :=
  C2_cached_branch_idempotent [] ⟨.prim .pint, false, true, none⟩ ⟨[], 0⟩ 0 0
    (.primR .pint false "int" 0)
    ⟨[((.prim .pint, false), .primR .pint false "int" 0)], 1⟩ (by decide) rfl

end Typical
namespace Typical

/-! ### C6 (amended): null short-circuit on every branch but single-type enums -/

/-- Whether an annotation avoids the enum branch's specialized closure: any
non-enum type, or an enum whose members do not share exactly one value
type (which falls back to the generic passthrough). -/
def notSingleEnum (a : Anno) : Bool :=
  match a.ty with
  | .enumT _ vals =>
    match distinctTys vals with
    | [_] => false
    | _ => true
  | _ => true

/-- C6 (amended): for every optional annotation whose dispatch does not
reach the single-value-type enum closure, the compiled routine invoked on
the null sentinel returns the null sentinel immediately — the generated
branches emit the null check before any type-specific logic, and the
generic passthrough maps the null sentinel to itself. (The enum closure,
by contrast, reads `o.value` with no null check; see the counterexample.) -/
theorem C6_null_short_circuit
    (env : Env) (a : Anno) (st : CompSt) (fuel fuel2 : Nat) (r : Routine) (st' : CompSt)
    (lazy : Bool) (name : Option String)
    (hopt : a.optional = true)
    (hne : notSingleEnum a = true)
    (hcache : cacheFind st.cache a.ty a.optional = none)
    (h : compileSer env (fuel + 1) a st = some (r, st')) :
    runSer (fuel2 + 1) r .vnone lazy name = some (.ok (.base .vnone)) := by
  obtain ⟨ty, aopt, astat, aser⟩ := a
  simp only [Anno.optional] at hopt
  subst hopt
  cases astat with
  | false =>
    simp only [compileSer, compileStep, hcache, Bool.not_false, reduceIte,
      Option.some.injEq, Prod.mk.injEq] at h
    obtain ⟨hr, _⟩ := h
    subst hr
    rfl
  | true =>
    cases ty with
    | dynamic =>
      simp only [compileSer, compileStep, hcache, Bool.not_true, Bool.false_eq_true,
        reduceIte, Option.some.injEq, Prod.mk.injEq] at h
      obtain ⟨hr, _⟩ := h
      subst hr
      rfl
    | union args =>
      simp only [compileSer, compileStep, hcache, Bool.not_true, Bool.false_eq_true,
        reduceIte, Option.some.injEq, Prod.mk.injEq] at h
      obtain ⟨hr, _⟩ := h
      subst hr
      rfl
    | opt t =>
      simp only [compileSer, compileStep, hcache, Bool.not_true, Bool.false_eq_true,
        reduceIte, Option.some.injEq, Prod.mk.injEq] at h
      obtain ⟨hr, _⟩ := h
      subst hr
      rfl
    | enumT en vals =>
      simp only [compileSer, compileStep, hcache, Bool.not_true, Bool.false_eq_true,
        reduceIte] at h
      simp only [notSingleEnum] at hne
      cases hd : distinctTys vals with
      | nil =>
        simp only [hd, Option.some.injEq, Prod.mk.injEq] at h
        obtain ⟨hr, _⟩ := h
        subst hr
        rfl
      | cons t rest =>
        cases rest with
        | nil => simp [hd] at hne
        | cons t2 rest2 =>
          simp only [hd, Option.some.injEq, Prod.mk.injEq] at h
          obtain ⟨hr, _⟩ := h
          subst hr
          rfl
    | prim p =>
      simp only [compileSer, compileStep, hcache, Bool.not_true, Bool.false_eq_true,
        reduceIte, Option.some.injEq, Prod.mk.injEq] at h
      obtain ⟨hr, _⟩ := h
      subst hr
      rfl
    | primSub n p =>
      simp only [compileSer, compileStep, hcache, Bool.not_true, Bool.false_eq_true,
        reduceIte, Option.some.injEq, Prod.mk.injEq] at h
      obtain ⟨hr, _⟩ := h
      subst hr
      rfl
    | defined d =>
      simp only [compileSer, compileStep, hcache, Bool.not_true, Bool.false_eq_true,
        reduceIte, Option.some.injEq, Prod.mk.injEq] at h
      obtain ⟨hr, _⟩ := h
      subst hr
      rfl
    | definedSub n d =>
      simp only [compileSer, compileStep, hcache, Bool.not_true, Bool.false_eq_true,
        reduceIte, Option.some.injEq, Prod.mk.injEq] at h
      obtain ⟨hr, _⟩ := h
      subst hr
      rfl
    | listU =>
      simp only [compileSer, compileStep, hcache, Bool.not_true, Bool.false_eq_true,
        reduceIte, Option.some.injEq, Prod.mk.injEq] at h
      obtain ⟨hr, _⟩ := h
      subst hr
      rfl
    | listT et =>
      simp only [compileSer, compileStep, hcache, Bool.not_true, Bool.false_eq_true,
        reduceIte] at h
      split at h
      · exact Option.noConfusion h
      · simp only [Option.some.injEq, Prod.mk.injEq] at h
        obtain ⟨hr, _⟩ := h
        subst hr
        rfl
    | dictU =>
      simp only [compileSer, compileStep, hcache, Bool.not_true, Bool.false_eq_true,
        reduceIte, Option.some.injEq, Prod.mk.injEq] at h
      obtain ⟨hr, _⟩ := h
      subst hr
      rfl
    | dictT kt vt =>
      simp only [compileSer, compileStep, hcache, Bool.not_true, Bool.false_eq_true,
        reduceIte] at h
      split at h
      · exact Option.noConfusion h
      · split at h
        · exact Option.noConfusion h
        · simp only [Option.some.injEq, Prod.mk.injEq] at h
          obtain ⟨hr, _⟩ := h
          subst hr
          rfl
    | record rname =>
      simp only [compileSer, compileStep, hcache, Bool.not_true, Bool.false_eq_true,
        reduceIte] at h
      split at h
      · exact Option.noConfusion h
      · simp only [Option.some.injEq, Prod.mk.injEq] at h
        obtain ⟨hr, _⟩ := h
        subst hr
        rfl

/-- Witness for C6 (amended): the routine compiled for `Optional[int]`
returns the null sentinel on the null sentinel. -/
theorem C6_null_short_circuit_witness :
    runSer 1 (.primR .pint true "int" 0) .vnone false none =
      some (.ok (.base .vnone)) :=
  C6_null_short_circuit [] ⟨.prim .pint, true, true, none⟩ ⟨[], 0⟩ 0 0
    (.primR .pint true "int" 0)
    ⟨[((.prim .pint, true), .primR .pint true "int" 0)], 1⟩ false none
    rfl rfl rfl rfl

end Typical
namespace Typical

/-! ### C3 (amended): the class-field wrapper omits by raw value -/

/-- The class dict's field names are the serializer table's out-names. -/
theorem serClassFields_names : (flds : RFields) → ∀ (f : Routine → PVal → String → OE LVal)
    (inst : PFields) (omits : PList) (lfs : LFields),
    serClassFields f inst omits flds = some (.ok lfs) → lfs.names = flds.outNames
  | .nil => by
    intro f inst omits lfs h
    simp only [serClassFields, Option.some.injEq, Except.ok.injEq] at h
    subst h
    rfl
  | .cons y0 a0 s0 tl => by
    have ih := serClassFields_names tl
    intro f inst omits lfs h
    simp only [serClassFields] at h
    cases hlk : inst.lookup a0 with
    | none => simp [hlk] at h
    | some raw0 =>
      simp only [hlk] at h
      cases hmem : PList.pyMem raw0 omits with
      | true =>
        simp only [hmem, reduceIte] at h
        cases hrec : serClassFields f inst omits tl with
        | none => simp [hrec] at h
        | some res =>
          cases res with
          | error e => simp [hrec] at h
          | ok rest =>
            simp only [hrec, Option.some.injEq, Except.ok.injEq] at h
            subst h
            simp [LFields.names, RFields.outNames, ih f inst omits rest hrec]
      | false =>
        simp only [hmem, Bool.false_eq_true, reduceIte] at h
        cases hf0 : f s0 raw0 y0 with
        | none => simp [hf0] at h
        | some res0 =>
          cases res0 with
          | error e => simp [hf0] at h
          | ok lv0 =>
            simp only [hf0] at h
            cases hrec : serClassFields f inst omits tl with
            | none => simp [hrec] at h
            | some res =>
              cases res with
              | error e => simp [hrec] at h
              | ok rest =>
                simp only [hrec, Option.some.injEq, Except.ok.injEq] at h
                subst h
                simp [LFields.names, RFields.outNames, ih f inst omits rest hrec]
termination_by structural v => v

/-- A key of a materialized class dict is one of the wrapper's field names. -/
theorem lfMat_hasKey_names : (lfs : LFields) → ∀ (y : String),
    (LFields.mat lfs).hasKeyStr y = true → strsContain lfs.names y = true
  | .nil => by intro y h; simp [LFields.mat, PPairs.hasKeyStr] at h
  | .consOmitted n tl => by
    have ih := lfMat_hasKey_names tl
    intro y h
    simp only [LFields.mat] at h
    simp [LFields.names, strsContain, ih y h]
  | .consVal n lv tl => by
    have ih := lfMat_hasKey_names tl
    intro y h
    simp only [LFields.mat, PPairs.hasKeyStr] at h
    simp only [LFields.names, strsContain]
    rcases Bool.or_eq_true_iff.mp h with h1 | h2
    · simp only [PVal.beq] at h1
      simp [h1]
    · simp [ih y h2]
termination_by structural v => v

/-- A field named in a class serializer's table is among its out-names. -/
theorem RFields.hasField_outNames : (flds : RFields) → ∀ (y attr : String) (fser : Routine),
    flds.hasField y attr fser = true → strsContain flds.outNames y = true
  | .nil => by intro y attr fser h; simp [RFields.hasField] at h
  | .cons y0 a0 s0 tl => by
    have ih := RFields.hasField_outNames tl
    intro y attr fser h
    simp only [RFields.hasField, Bool.or_eq_true, Bool.and_eq_true] at h
    simp only [RFields.outNames, strsContain, Bool.or_eq_true]
    rcases h with ⟨⟨h1, _⟩, _⟩ | h2
    · exact Or.inl h1
    · exact Or.inr (ih y attr fser h2)
termination_by structural v => v

/-- Core of C3 (amended): in the class-field wrapper, a field whose raw
(pre-serialization) value is a member of the omit tuple is computed as
`Omit`, skipped by iteration and absent from the materialized output. -/
theorem serClassFields_omitted_absent :
    ∀ (flds : RFields) (f : Routine → PVal → String → OE LVal) (inst : PFields)
      (omits : PList) (lfs : LFields) (y attr : String) (fser : Routine) (raw : PVal),
    serClassFields f inst omits flds = some (.ok lfs) →
    flds.hasField y attr fser = true →
    inst.lookup attr = some raw →
    PList.pyMem raw omits = true →
    strNodup flds.outNames = true →
    (LFields.mat lfs).hasKeyStr y = false := fun flds => match flds with
  | .nil => by intro f inst omits lfs y attr fser raw h hf; simp [RFields.hasField] at hf
  | .cons y0 a0 s0 tl => by
    have ih := serClassFields_omitted_absent tl
    intro f inst omits lfs y attr fser raw h hf hlk hmem hnodup
    simp only [RFields.hasField, Bool.or_eq_true, Bool.and_eq_true] at hf
    simp only [RFields.outNames, strNodup, Bool.and_eq_true, Bool.not_eq_true'] at hnodup
    obtain ⟨hnd1, hnd2⟩ := hnodup
    simp only [serClassFields] at h
    cases hlk0 : inst.lookup a0 with
    | none => simp [hlk0] at h
    | some raw0 =>
      simp only [hlk0] at h
      cases hmem0 : PList.pyMem raw0 omits with
      | true =>
        simp only [hmem0, reduceIte] at h
        cases hrec : serClassFields f inst omits tl with
        | none => simp [hrec] at h
        | some res =>
          cases res with
          | error e => simp [hrec] at h
          | ok rest =>
            simp only [hrec, Option.some.injEq, Except.ok.injEq] at h
            subst h
            simp only [LFields.mat]
            rcases hf with ⟨⟨h1, _⟩, _⟩ | h2
            · cases hk : (LFields.mat rest).hasKeyStr y with
              | false => rfl
              | true =>
                exfalso
                have hmemn := lfMat_hasKey_names rest y hk
                rw [serClassFields_names tl f inst omits rest hrec] at hmemn
                have hy : y0 = y := eq_of_beq h1
                rw [← hy] at hmemn
                rw [hmemn] at hnd1
                exact Bool.noConfusion hnd1
            · exact ih f inst omits rest y attr fser raw hrec h2 hlk hmem hnd2
      | false =>
        simp only [hmem0, Bool.false_eq_true, reduceIte] at h
        cases hf0 : f s0 raw0 y0 with
        | none => simp [hf0] at h
        | some res0 =>
          cases res0 with
          | error e => simp [hf0] at h
          | ok lv0 =>
            simp only [hf0] at h
            cases hrec : serClassFields f inst omits tl with
            | none => simp [hrec] at h
            | some res =>
              cases res with
              | error e => simp [hrec] at h
              | ok rest =>
                simp only [hrec, Option.some.injEq, Except.ok.injEq] at h
                subst h
                rcases hf with ⟨⟨h1, h2⟩, _⟩ | h2
                · exfalso
                  have ha : a0 = attr := eq_of_beq h2
                  rw [ha, hlk] at hlk0
                  have hre : raw = raw0 := by injection hlk0
                  rw [← hre, hmem] at hmem0
                  exact Bool.noConfusion hmem0
                · have hyne : (PVal.beq (.vstr y0) (.vstr y)) = false := by
                    have hmemy := RFields.hasField_outNames tl y attr fser h2
                    simp only [PVal.beq]
                    cases he : y0 == y with
                    | false => rfl
                    | true =>
                      exfalso
                      have : y0 = y := eq_of_beq he
                      rw [this, hmemy] at hnd1
                      exact Bool.noConfusion hnd1
                  simp only [LFields.mat, PPairs.hasKeyStr, hyne, Bool.false_or]
                  exact ih f inst omits rest y attr fser raw hrec h2 hlk hmem hnd2
termination_by structural flds => flds

/-- C3 (amended): for the class-field wrapper, every field whose raw value
is a member of the omit set is absent from the materialized output (and
hence from iteration), in lazy and eager mode alike — provided the
serialized field names are pairwise distinct, as `make_class_serdict`
produces them. -/
theorem C3_class_field_omitted_absent
    (fuel : Nat) (rname : String) (flds : RFields) (omits : PList) (opt : Bool)
    (tname : String) (rid : Nat) (c : String) (pf : PFields) (lazy : Bool)
    (name : Option String) (y attr : String) (fser : Routine) (raw : PVal) (lv : LVal)
    (hf : flds.hasField y attr fser = true)
    (hnodup : strNodup flds.outNames = true)
    (hlk : pf.lookup attr = some raw)
    (hmem : PList.pyMem raw omits = true)
    (hrun : runSer fuel (.classR rname flds omits opt tname rid) (.vinst c pf) lazy name
      = some (.ok lv)) :
    ∃ es, lv.mat = .vdict es ∧ es.hasKeyStr y = false := by
  cases fuel with
  | zero => exact Option.noConfusion hrun
  | succ n =>
    have hbn : PVal.beq (.vinst c pf) .vnone = false := rfl
    simp only [runSer, runSerStep, hbn, Bool.and_false, Bool.false_eq_true, reduceIte] at hrun
    cases hcr : c == rname with
    | false => simp [hcr] at hrun
    | true =>
      simp only [hcr, reduceIte] at hrun
      cases hsf : serClassFields
          (fun fr raw y => runSer n fr raw lazy (some ((name.getD tname) ++ "." ++ y)))
          pf omits flds with
      | none => simp [hsf] at hrun
      | some res =>
        cases res with
        | error e => simp [hsf] at hrun
        | ok lfs =>
          simp only [hsf] at hrun
          have habs := serClassFields_omitted_absent flds _ pf omits lfs y attr fser raw
            hsf hf hlk hmem hnodup
          cases lazy with
          | true =>
            simp only [reduceIte, Option.some.injEq, Except.ok.injEq] at hrun
            subst hrun
            exact ⟨LFields.mat lfs, rfl, habs⟩
          | false =>
            simp only [Bool.false_eq_true, reduceIte, Option.some.injEq,
              Except.ok.injEq] at hrun
            subst hrun
            exact ⟨LFields.mat lfs, rfl, habs⟩

/-- Witness for C3 (amended): in the record `R {a: str, b: str}` with
omit-set `{"SKIP"}` and an instance whose field `a` holds `"SKIP"`, the key
`a` is absent from the eagerly materialized output. -/
theorem C3_class_field_omitted_absent_witness :
    ∃ es, (LVal.base (.vdict (.cons (.vstr "b") (.vstr "keep") .nil))).mat = .vdict es ∧
      es.hasKeyStr "a" = false :=
  C3_class_field_omitted_absent 3 "R"
    (.cons "a" "a" (.primR .pstr false "str" 0)
      (.cons "b" "b" (.primR .pstr false "str" 1) .nil))
    (.cons (.vstr "SKIP") .nil) false "R" 2 "R"
    (.cons "a" (.vstr "SKIP") (.cons "b" (.vstr "keep") .nil)) false none
    "a" "a" (.primR .pstr false "str" 0) (.vstr "SKIP")
    (.base (.vdict (.cons (.vstr "b") (.vstr "keep") .nil)))
    rfl rfl rfl rfl rfl

end Typical
namespace Typical

/-! ### C5 (amended): lazy/eager equivalence for non-container omit sets -/

/-- Against a non-container value, Python `==` on a stored (possibly
wrapper) value agrees with `==` on its materialization: a wrapper object is
a list/dict subclass and never equals a scalar, and neither does the
container it materializes to. -/
theorem pyEqP_scalar (lv : LVal) (m : PVal) (hm : m.isContainer = false) :
    LVal.pyEqP lv m = PVal.pyEq lv.mat m := by
  cases lv with
  | base v => rfl
  | wlist xs =>
    cases m <;> simp_all [PVal.isContainer, LVal.pyEqP, LVal.mat, PVal.pyEq]
  | wkv omits entries =>
    cases m <;> simp_all [PVal.isContainer, LVal.pyEqP, LVal.mat, PVal.pyEq]
  | wclass entries =>
    cases m <;> simp_all [PVal.isContainer, LVal.pyEqP, LVal.mat, PVal.pyEq]

/-- For an omit tuple of non-container values, membership of a stored
value agrees with membership of its materialization. -/
theorem pyMemOmit_scalar : (omits : PList) → ∀ (lv : LVal),
    omits.allScalar = true → lv.pyMemOmit omits = PList.pyMem lv.mat omits
  | .nil => by intro lv h; rfl
  | .cons x xs => by
    intro lv h
    simp only [PList.allScalar, Bool.and_eq_true, Bool.not_eq_true'] at h
    obtain ⟨h1, h2⟩ := h
    simp only [LVal.pyMemOmit, PList.pyMem, pyEqP_scalar lv x h1,
      pyMemOmit_scalar xs lv h2]
termination_by structural v => v

/-- Inversion for equal images of invocation results: both diverge, both
raise the same error, or both return values with equal images. -/
theorem omap_rel {α β : Type} (m : α → β) (a b : Option (Except SerErr α))
    (h : Option.map (Except.map m) a = Option.map (Except.map m) b) :
    (a = none ∧ b = none) ∨ (∃ e, a = some (.error e) ∧ b = some (.error e)) ∨
    (∃ x y, a = some (.ok x) ∧ b = some (.ok y) ∧ m x = m y) := by
  cases a with
  | none =>
    cases b with
    | none => exact Or.inl ⟨rfl, rfl⟩
    | some eb => simp [Option.map] at h
  | some ea =>
    cases b with
    | none => simp [Option.map] at h
    | some eb =>
      cases ea with
      | error e1 =>
        cases eb with
        | error e2 =>
          simp only [Option.map, Except.map, Option.some.injEq, Except.error.injEq] at h
          exact Or.inr (Or.inl ⟨e1, rfl, by rw [h]⟩)
        | ok x2 => simp [Option.map, Except.map] at h
      | ok x1 =>
        cases eb with
        | error e2 => simp [Option.map, Except.map] at h
        | ok x2 =>
          simp only [Option.map, Except.map, Option.some.injEq, Except.ok.injEq] at h
          exact Or.inr (Or.inr ⟨x1, x2, rfl, rfl, h⟩)

/-- Pointwise equal element serializers give `SerList` constructions with
equal images. -/
theorem serElems_cong (f g : PVal → Nat → OE LVal)
    (hp : ∀ x i, matOE (f x i) = matOE (g x i)) :
    (xs : PList) → ∀ (i : Nat),
    Option.map (Except.map LList.mat) (serElems f xs i) =
      Option.map (Except.map LList.mat) (serElems g xs i)
  | .nil => by intro i; rfl
  | .cons x xs => by
    intro i
    rcases omap_rel LVal.mat _ _ (hp x i) with ⟨h1, h2⟩ | ⟨e, h1, h2⟩ | ⟨lv, lw, h1, h2, hm⟩ <;>
      simp only [serElems, h1, h2]
    rcases omap_rel LList.mat _ _ (serElems_cong f g hp xs (i + 1)) with
      ⟨h3, h4⟩ | ⟨e, h3, h4⟩ | ⟨l1, l2, h3, h4, hm2⟩ <;> simp only [h3, h4]
    simp [Option.map, Except.map, LList.mat, hm, hm2]
termination_by structural v => v

/-- Pointwise equal value serializers give `KVSerDict` value stages with
equal images under a non-container omit tuple (the per-key read applies
the omit comparison to the stored value, which agrees across the two
stages by `pyMemOmit_scalar`). -/
theorem serKVVals_cong (f g : PVal → PVal → OE LVal) (omits : PList)
    (hs : omits.allScalar = true)
    (hp : ∀ sk raw, matOE (f sk raw) = matOE (g sk raw)) :
    (skE : PPairs) →
    Option.map (Except.map (LEntries.mat omits)) (serKVVals f skE) =
      Option.map (Except.map (LEntries.mat omits)) (serKVVals g skE)
  | .nil => by rfl
  | .cons sk raw tl => by
    rcases omap_rel LVal.mat _ _ (hp sk raw) with ⟨h1, h2⟩ | ⟨e, h1, h2⟩ | ⟨lv, lw, h1, h2, hm⟩ <;>
      simp only [serKVVals, h1, h2]
    rcases omap_rel (LEntries.mat omits) _ _ (serKVVals_cong f g omits hs hp tl) with
      ⟨h3, h4⟩ | ⟨e, h3, h4⟩ | ⟨l1, l2, h3, h4, hm2⟩ <;> simp only [h3, h4]
    simp only [Option.map, Except.map, LEntries.mat, Option.some.injEq, Except.ok.injEq,
      PPairs.cons.injEq]
    refine ⟨trivial, ?_, hm2⟩
    rw [pyMemOmit_scalar omits lv hs, pyMemOmit_scalar omits lw hs, hm]
termination_by structural v => v

/-- Pointwise equal field serializers (for fields with well-formed omit
tuples) give class-field stages with equal images; the raw-value omit
check is identical on both sides. -/
theorem serClassFields_cong (f g : Routine → PVal → String → OE LVal) (inst : PFields)
    (omits : PList)
    (hp : ∀ fr raw y, fr.goodOmits = true → matOE (f fr raw y) = matOE (g fr raw y)) :
    (flds : RFields) → flds.goodOmits = true →
    Option.map (Except.map LFields.mat) (serClassFields f inst omits flds) =
      Option.map (Except.map LFields.mat) (serClassFields g inst omits flds)
  | .nil => by intro _; rfl
  | .cons y0 a0 s0 tl => by
    intro hg
    simp only [RFields.goodOmits, Bool.and_eq_true] at hg
    obtain ⟨hg0, hgt⟩ := hg
    cases hlk : inst.lookup a0 with
    | none => simp [serClassFields, hlk]
    | some raw0 =>
      cases hmem : PList.pyMem raw0 omits with
      | true =>
        simp only [serClassFields, hlk, hmem, reduceIte]
        rcases omap_rel LFields.mat _ _ (serClassFields_cong f g inst omits hp tl hgt) with
          ⟨h3, h4⟩ | ⟨e, h3, h4⟩ | ⟨l1, l2, h3, h4, hm2⟩ <;> simp only [h3, h4]
        simp [Option.map, Except.map, LFields.mat, hm2]
      | false =>
        simp only [serClassFields, hlk, hmem, Bool.false_eq_true, reduceIte]
        rcases omap_rel LVal.mat _ _ (hp s0 raw0 y0 hg0) with
          ⟨h1, h2⟩ | ⟨e, h1, h2⟩ | ⟨lv, lw, h1, h2, hm⟩ <;> simp only [h1, h2]
        rcases omap_rel LFields.mat _ _ (serClassFields_cong f g inst omits hp tl hgt) with
          ⟨h3, h4⟩ | ⟨e, h3, h4⟩ | ⟨l1, l2, h3, h4, hm2⟩ <;> simp only [h3, h4]
        simp [Option.map, Except.map, LFields.mat, hm, hm2]
termination_by structural v => v

/-- C5 (amended): for every compiled routine whose omit tuples contain no
container values, invoking with `lazy=True` and fully materializing the
result equals invoking with `lazy=False` — as a single equation on
invocation results including divergence and raised errors. With a
container omit value the two sides can differ (see the counterexample):
the eager path compares the memoized plain value to the omit member while
the lazy path compares the unmaterialized wrapper object. -/
theorem C5_lazy_eager_equiv : ∀ (fuel : Nat) (r : Routine), r.goodOmits = true →
    ∀ (v : PVal) (name : Option String),
    matOE (runSer fuel r v true name) = matOE (runSer fuel r v false name) := by
  intro fuel
  induction fuel with
  | zero => intro r _ v name; rfl
  | succ n ih =>
    intro r hg v name
    cases r with
    | primitive => rfl
    | primR p opt tname rid => rfl
    | definedR d opt tname rid => rfl
    | castR s p opt tname rid => rfl
    | listRU opt tname rid => rfl
    | enumR inner rid =>
      have hgi : inner.goodOmits = true := by simpa [Routine.goodOmits] using hg
      cases v with
      | venum en pay => exact ih inner hgi pay name
      | vinst c pf =>
        show matOE (runSerStep (runSer n) _ _ _ _) = matOE (runSerStep (runSer n) _ _ _ _)
        cases hlk : pf.lookup "value" with
        | some pay =>
          simp only [runSerStep, hlk]
          exact ih inner hgi pay name
        | none => simp [runSerStep, hlk]
      | vnone => rfl
      | vbool b => rfl
      | vint k => rfl
      | vstr s => rfl
      | vfloat q => rfl
      | vdefined d p => rfl
      | vlist xs => rfl
      | vdict es => rfl
      | vomit => rfl
    | listRT er opt tname rid =>
      have hge : er.goodOmits = true := by simpa [Routine.goodOmits] using hg
      show matOE (runSerStep (runSer n) _ _ _ _) = matOE (runSerStep (runSer n) _ _ _ _)
      cases hnull : opt && PVal.beq v .vnone with
      | true => simp [runSerStep, hnull]
      | false =>
        simp only [runSerStep, hnull, Bool.false_eq_true, reduceIte]
        cases v with
        | vlist xs =>
          rcases omap_rel LList.mat _ _
              (serElems_cong
                (fun x i => runSer n er x true (some ((name.getD tname) ++ "[" ++ toString i ++ "]")))
                (fun x i => runSer n er x false (some ((name.getD tname) ++ "[" ++ toString i ++ "]")))
                (fun x i => ih er hge x _) xs 0) with
            ⟨h1, h2⟩ | ⟨e, h1, h2⟩ | ⟨l1, l2, h1, h2, hm⟩ <;> simp only [h1, h2]
          simp [matOE, Option.map, Except.map, LVal.mat, hm]
        | vnone => rfl
        | vbool b => rfl
        | vint k => rfl
        | vstr s => rfl
        | vfloat q => rfl
        | vdefined d p => rfl
        | venum en p => rfl
        | vdict es => rfl
        | vinst c pf => rfl
        | vomit => rfl
    | dictR fo cs ks vs omits opt tname rid =>
      have hga : omits.allScalar = true := by
        have := hg; simp only [Routine.goodOmits, Bool.and_eq_true] at this; exact this.1.1
      have hgv : vs.goodOmits = true := by
        have := hg; simp only [Routine.goodOmits, Bool.and_eq_true] at this; exact this.2
      show matOE (runSerStep (runSer n) _ _ _ _) = matOE (runSerStep (runSer n) _ _ _ _)
      cases hnull : opt && PVal.beq v .vnone with
      | true => simp [runSerStep, hnull]
      | false =>
        simp only [runSerStep, hnull, Bool.false_eq_true, reduceIte]
        cases v with
        | vdict es =>
          cases hk : serKeysAux (keyPipe fo cs fun k => runSer n ks k false none) es .nil with
          | none => simp [hk]
          | some resk =>
            cases resk with
            | error e => simp [hk]
            | ok skE =>
              simp only [hk]
              rcases omap_rel (LEntries.mat omits) _ _
                  (serKVVals_cong
                    (fun sk raw => runSer n vs raw true (some ((name.getD tname) ++ "[" ++ sk.shortRepr ++ "]")))
                    (fun sk raw => runSer n vs raw false (some ((name.getD tname) ++ "[" ++ sk.shortRepr ++ "]")))
                    omits hga (fun sk raw => ih vs hgv raw _) skE) with
                ⟨h1, h2⟩ | ⟨e, h1, h2⟩ | ⟨l1, l2, h1, h2, hm⟩ <;> simp only [h1, h2]
              simp [matOE, Option.map, Except.map, LVal.mat, hm]
        | vnone => rfl
        | vbool b => rfl
        | vint k => rfl
        | vstr s => rfl
        | vfloat q => rfl
        | vdefined d p => rfl
        | venum en p => rfl
        | vlist xs => rfl
        | vinst c pf => rfl
        | vomit => rfl
    | classR rname flds omits opt tname rid =>
      have hgf : flds.goodOmits = true := by
        have := hg; simp only [Routine.goodOmits, Bool.and_eq_true] at this; exact this.2
      show matOE (runSerStep (runSer n) _ _ _ _) = matOE (runSerStep (runSer n) _ _ _ _)
      cases hnull : opt && PVal.beq v .vnone with
      | true => simp [runSerStep, hnull]
      | false =>
        simp only [runSerStep, hnull, Bool.false_eq_true, reduceIte]
        cases v with
        | vinst c pf =>
          cases hcr : c == rname with
          | false => simp [hcr]
          | true =>
            simp only [hcr, reduceIte]
            rcases omap_rel LFields.mat _ _
                (serClassFields_cong
                  (fun fr raw y => runSer n fr raw true (some ((name.getD tname) ++ "." ++ y)))
                  (fun fr raw y => runSer n fr raw false (some ((name.getD tname) ++ "." ++ y)))
                  pf omits (fun fr raw y hgood => ih fr hgood raw _) flds hgf) with
              ⟨h1, h2⟩ | ⟨e, h1, h2⟩ | ⟨l1, l2, h1, h2, hm⟩ <;> simp only [h1, h2]
            simp [matOE, Option.map, Except.map, LVal.mat, hm]
        | vnone => rfl
        | vbool b => rfl
        | vint k => rfl
        | vstr s => rfl
        | vfloat q => rfl
        | vdefined d p => rfl
        | venum en p => rfl
        | vlist xs => rfl
        | vdict es => rfl
        | vomit => rfl

/-- Witness for C5 (amended): the equivalence applied to the compiled
`Dict[str, int]` routine with the scalar omit value `9`, on `{"a": 9, "b": 1}`. -/
theorem C5_lazy_eager_equiv_witness :
    Routine.goodOmits (.dictR [] none (.primR .pstr false "str" 0)
      (.primR .pint false "int" 1) (.cons (.vint 9) .nil) false "dict" 2) = true ∧
    matOE (runSer 4 (.dictR [] none (.primR .pstr false "str" 0)
        (.primR .pint false "int" 1) (.cons (.vint 9) .nil) false "dict" 2)
      (.vdict (.cons (.vstr "a") (.vint 9) (.cons (.vstr "b") (.vint 1) .nil))) true none) =
    matOE (runSer 4 (.dictR [] none (.primR .pstr false "str" 0)
        (.primR .pint false "int" 1) (.cons (.vint 9) .nil) false "dict" 2)
      (.vdict (.cons (.vstr "a") (.vint 9) (.cons (.vstr "b") (.vint 1) .nil))) false none) :=
  ⟨rfl, C5_lazy_eager_equiv 4 (.dictR [] none (.primR .pstr false "str" 0)
      (.primR .pint false "int" 1) (.cons (.vint 9) .nil) false "dict" 2) rfl
    (.vdict (.cons (.vstr "a") (.vint 9) (.cons (.vstr "b") (.vint 1) .nil))) none⟩

end Typical
namespace Typical

/-! ### C8 (amended): self-reference in the schema builder -/

/-- `find` over an appended property list. -/
theorem SFields.find_append : (a : SFields) → ∀ (b : SFields) (nm : String),
    (a.append b).find nm =
      (match a.find nm with
        | some f => some f
        | none => b.find nm)
  | .nil => by intro b nm; rfl
  | .cons n f tl => by
    intro b nm
    simp only [SFields.append, SFields.find]
    cases hnb : n == nm with
    | true => simp
    | false => simp [SFields.find_append tl b nm]
termination_by structural v => v

/-- A member field's name is among the field-name list. -/
theorem mem_strsContain : ∀ (flds : List RecField) (fd : RecField), fd ∈ flds →
    strsContain (flds.map (·.fname)) fd.fname = true := by
  intro flds
  induction flds with
  | nil => intro fd h; cases h
  | cons fd0 rest ih =>
    intro fd h
    rcases List.mem_cons.mp h with h1 | h2
    · subst h1; simp [strsContain]
    · simp [strsContain, ih fd h2]

/-- An already-emitted property survives the rest of the field loop when no
later field shares its name. -/
theorem buildFieldsLoop_find_preserved :
    ∀ (flds : List RecField) (g : Anno → String → SchSt → OSch) (rname : String)
      (st : SchSt) (props0 : SFields) (req0 : List String) (defs0 : SFields)
      (out : (SFields × List String × SFields) × SchSt) (nm : String) (f : SchemaField),
    buildFieldsLoop g rname flds st props0 req0 defs0 = some (.ok out) →
    props0.find nm = some f →
    strsContain (flds.map (·.fname)) nm = false →
    out.1.1.find nm = some f := by
  intro flds
  induction flds with
  | nil =>
    intro g rname st props0 req0 defs0 out nm f h hf _
    simp only [buildFieldsLoop, Option.some.injEq, Except.ok.injEq] at h
    rw [← h]
    exact hf
  | cons fd0 rest ih =>
    intro g rname st props0 req0 defs0 out nm f h hf hcont
    simp only [List.map, strsContain, Bool.or_eq_true, not_or] at hcont
    have hne : (fd0.fname == nm) = false := by
      cases he : fd0.fname == nm with
      | false => rfl
      | true => rw [he] at hcont; simp at hcont
    have hrest : strsContain (rest.map (·.fname)) nm = false := by
      cases hr : strsContain (rest.map (·.fname)) nm with
      | false => rfl
      | true => rw [hr] at hcont; simp at hcont
    have hfind : ∀ (x : SchemaField),
        (props0.append (.cons fd0.fname x .nil)).find nm = some f := by
      intro x
      rw [SFields.find_append]
      simp [hf]
    cases hbq : PTy.beq (resolveAnno fd0.fty {}).ty (.record rname) with
    | true =>
      simp only [buildFieldsLoop, hbq, reduceIte] at h
      exact ih g rname st _ _ defs0 out nm f h (hfind _) hrest
    | false =>
      simp only [buildFieldsLoop, hbq, Bool.false_eq_true, reduceIte] at h
      cases hgf : g (resolveAnno fd0.fty {}) fd0.fname st with
      | none => simp [hgf] at h
      | some res =>
        cases res with
        | error e => simp [hgf] at h
        | ok fsch =>
          simp only [hgf] at h
          exact ih g rname fsch.2 _ _ _ out nm f h (hfind _) hrest

/-- Core of C8 (amended): in `build_schema`'s field loop, every field whose
resolved origin is the record being built is emitted as a reference
pointer to the record's own definition name, without recursing. -/
theorem buildFieldsLoop_selfref :
    ∀ (flds : List RecField) (g : Anno → String → SchSt → OSch) (rname : String)
      (st : SchSt) (props0 : SFields) (req0 : List String) (defs0 : SFields)
      (out : (SFields × List String × SFields) × SchSt) (fd : RecField),
    buildFieldsLoop g rname flds st props0 req0 defs0 = some (.ok out) →
    fd ∈ flds →
    (fd.fty.stripOpt).1 = .record rname →
    strNodup (flds.map (·.fname)) = true →
    props0.find fd.fname = none →
    out.1.1.find fd.fname = some (.ref ("#/definitions/" ++ defname rname none)) := by
  intro flds
  induction flds with
  | nil => intro g rname st props0 req0 defs0 out fd _ hmem; cases hmem
  | cons fd0 rest ih =>
    intro g rname st props0 req0 defs0 out fd h hmem hself hnodup hnone
    simp only [List.map, strNodup, Bool.and_eq_true, Bool.not_eq_true'] at hnodup
    obtain ⟨hnd1, hnd2⟩ := hnodup
    rcases List.mem_cons.mp hmem with h1 | h2
    · subst h1
      have hbq : PTy.beq (resolveAnno fd.fty {}).ty (.record rname) = true := by
        simp only [resolveAnno]
        rw [hself]
        exact ptyBeqRefl _
      simp only [buildFieldsLoop, hbq, reduceIte] at h
      have hstart : (props0.append (.cons fd.fname
          (.ref ("#/definitions/" ++ defname rname none)) .nil)).find fd.fname =
          some (.ref ("#/definitions/" ++ defname rname none)) := by
        rw [SFields.find_append]
        simp [hnone, SFields.find]
      exact buildFieldsLoop_find_preserved rest g rname st _ _ defs0 out fd.fname _
        h hstart hnd1
    · have hne : (fd0.fname == fd.fname) = false := by
        cases he : fd0.fname == fd.fname with
        | false => rfl
        | true =>
          exfalso
          have := mem_strsContain rest fd h2
          rw [eq_of_beq he, this] at hnd1
          exact Bool.noConfusion hnd1
      have hnone' : ∀ (x : SchemaField),
          (props0.append (.cons fd0.fname x .nil)).find fd.fname = none := by
        intro x
        rw [SFields.find_append]
        simp [hnone, SFields.find, hne]
      cases hbq : PTy.beq (resolveAnno fd0.fty {}).ty (.record rname) with
      | true =>
        simp only [buildFieldsLoop, hbq, reduceIte] at h
        exact ih g rname st _ _ defs0 out fd h h2 hself hnd2 (hnone' _)
      | false =>
        simp only [buildFieldsLoop, hbq, Bool.false_eq_true, reduceIte] at h
        cases hgf : g (resolveAnno fd0.fty {}) fd0.fname st with
        | none => simp [hgf] at h
        | some res =>
          cases res with
          | error e => simp [hgf] at h
          | ok fsch =>
            simp only [hgf] at h
            exact ih g rname fsch.2 _ _ _ out fd h h2 hself hnd2 (hnone' _)

/-- C8 (amended): a field typed (directly, possibly behind `Optional`) as
the record being built is emitted as a reference pointer to the record's
own definition name (`#/definitions/<Name>`) without recursing; the
builder terminates on the concrete self-referential record
`Node {child: Node, label: str}`; and it also terminates on a record whose
field is a union including the record itself — but there the reference is
built from the field's name, not the record's (see the counterexample). -/
theorem C8_selfref_schema :
    (∀ (env : Env) (rname : String) (rdef : RecordDef) (name : Option String) (st : SchSt)
      (fuel : Nat) (ttl : Option String) (props : SFields) (req : List String)
      (ao : Bool) (asch : SList) (defs : SFields) (st' : SchSt),
      env.find rname = some rdef →
      st.bcache.lookup rname = none →
      strNodup (rdef.fields.map (·.fname)) = true →
      buildSchemaF env (fuel + 1) rname name st =
        some (.ok (.objS ttl props req ao asch defs, st')) →
      ∀ fd ∈ rdef.fields, (fd.fty.stripOpt).1 = .record rname →
        props.find fd.fname = some (.ref ("#/definitions/" ++ defname rname none))) ∧
    (match buildSchemaF envNodeL 3 "Node" none {} with
      | some (.ok (.objS _ props _ _ _ _, _)) => props.find "child"
      | _ => none) = some (.ref "#/definitions/Node") ∧
    (match buildSchemaF envU 6 "NodeU" none {} with
      | some (.ok _) => true
      | _ => false) = true := by
  refine ⟨?_, rfl, rfl⟩
  intro env rname rdef name st fuel ttl props req ao asch defs st'
    hfind hbc hnodup h fd hmem hself
  simp only [buildSchemaF, hbc, hfind] at h
  cases hloop : buildFieldsLoop
      (fun a' nm st' => getFieldF env fuel a' (some nm) (some rname) st')
      rname rdef.fields st .nil [] .nil with
  | none => simp [hloop] at h
  | some res =>
    cases res with
    | error e => simp [hloop] at h
    | ok out =>
      simp only [hloop, Option.some.injEq, Except.ok.injEq, Prod.mk.injEq,
        SchemaField.objS.injEq] at h
      obtain ⟨⟨_, hp, _⟩, _⟩ := h
      rw [← hp]
      exact buildFieldsLoop_selfref rdef.fields _ rname st .nil [] .nil out fd
        hloop hmem hself hnodup rfl

end Typical
namespace Typical

/-- Witness for C8 (amended): the general self-reference statement applied
to the concrete record `Node {child: Node, label: str}`. -/
theorem C8_selfref_schema_witness :
    SFields.find (.cons "child" (.ref "#/definitions/Node") (.cons "label" .strF .nil))
      "child" = some (.ref ("#/definitions/" ++ defname "Node" none)) :=
  C8_selfref_schema.1 envNodeL "Node"
    ⟨[⟨"child", .record "Node", false⟩, ⟨"label", .prim .pstr, false⟩]⟩
    none {} 2 (some "Node")
    (.cons "child" (.ref "#/definitions/Node") (.cons "label" .strF .nil))
    ["child", "label"] false .nil .nil
    ⟨[(⟨.prim .pstr, false, true, some {}⟩, .strF)],
      [("Node", .objS (some "Node")
        (.cons "child" (.ref "#/definitions/Node") (.cons "label" .strF .nil))
        ["child", "label"] false .nil .nil)], []⟩
    rfl rfl rfl rfl ⟨"child", .record "Node", false⟩ (by simp) rfl

end Typical
